import Mathlib

/-!
Shallow embedding of the search-results extraction engine
(`SearchExtractor`): the selector evaluator (`runSelector`), the
transform chain (`runTransforms`), the first-match search
(`findFirstMatch`), the rule evaluator / message assembler / redundancy
filter (`extractMessages`), the cooldown fingerprint
(`doublefetchQueryHash`) and the job entry point (`runJob`).

External collaborators (the DOM produced by the HTML parser, the `URL`
class, the builtin-transform registry, the persisted-hash store, the
sanitizer, the HTTP fetcher and the random source) are modelled as
explicit parameters, so every definition is executable on concrete
inputs.
-/

namespace SearchExtractor

/-- JavaScript scalar values flowing through the extractor:
`null`, `undefined`, or a string. -/
inductive JSVal : Type where
  | null : JSVal
  | undefined : JSVal
  | str : String → JSVal
deriving DecidableEq, Repr

/-- Models the JavaScript `x ?? null` coercion. -/
def nullCoalesce : JSVal → JSVal
  | .undefined => .null
  | .null => .null
  | .str s => .str s

/-- `isPresent` from `extractMessages`:
`(x) => x !== null && x !== undefined && x !== ''`. -/
def isPresent : JSVal → Bool
  | .null => false
  | .undefined => false
  | .str s => !s.isEmpty

/-- JavaScript truthiness of an optional string
(absent, `null` and the empty string are falsy). -/
def truthyStr : Option String → Bool
  | none => false
  | some s => !s.isEmpty

/-- A DOM element as the extractor observes it: its attribute list (in
document order), its `textContent`, its DOM-reflected properties (such
as the parser-resolved `href` property, which the code deliberately
never reads), and its `querySelector` method. -/
inductive Elem : Type where
  | mk : List (String × String) → String → List (String × String) →
      (String → Option Elem) → Elem

def Elem.attrs : Elem → List (String × String)
  | .mk a _ _ _ => a

def Elem.textContent : Elem → String
  | .mk _ t _ _ => t

def Elem.props : Elem → List (String × String)
  | .mk _ _ p _ => p

def Elem.qs : Elem → String → Option Elem
  | .mk _ _ _ q => q

/-- `elem.getAttribute(name)`: the raw attribute value, or `null`. -/
def Elem.getAttribute (e : Elem) (name : String) : Option String :=
  (e.attrs.find? (fun p => p.1 = name)).map (fun p => p.2)

/-- `elem.hasAttribute(name)`. -/
def Elem.hasAttribute (e : Elem) (name : String) : Bool :=
  (e.getAttribute name).isSome

/-- The target element of `runSelector`:
`const elem = selector ? item.querySelector(selector) : item;`
(an absent or empty selector string is falsy, so the item itself is
used). -/
def selectTarget (item : Elem) (selector : Option String) : Option Elem :=
  if truthyStr selector then item.qs (selector.getD "") else some item

/-- `runSelector(item, selector, attr, baseURI)` from the source.
`resolveURL raw base` models `new URL(raw, base).href`, the external
`URL` class. The `href` branch reads the raw attribute
(`elem.getAttribute('href')`), never the DOM-resolved `href` property,
and resolves it against `baseURI`; a missing or empty raw value yields
`null`. -/
def runSelector (resolveURL : String → String → String) (item : Elem)
    (selector : Option String) (attr : String) (baseURI : String) : JSVal :=
  match selectTarget item selector with
  | none => .null
  | some elem =>
    if attr = "textContent" then
      .str elem.textContent
    else if attr = "href" then
      match elem.getAttribute "href" with
      | some rawLink => if rawLink.isEmpty then .null
                        else .str (resolveURL rawLink baseURI)
      | none => .null
    else
      match elem.getAttribute attr with
      | some v => .str v
      | none => .null

/-- Errors raised by the engine. `isPermanentError` is the tag the
caller uses to decide whether a retry could help. -/
structure XErr : Type where
  msg : String
  isPermanentError : Bool
deriving DecidableEq, Repr

/-- `BadPatternError` (errors module): malformed patterns are permanent
errors (spec section 7). -/
def BadPatternError (msg : String) : XErr :=
  { msg := msg, isPermanentError := true }

/-- A builtin transform: a pure function `(value, ...args) => value`. -/
abbrev TransformFn := JSVal → List JSVal → JSVal

/-- The builtin-transform registry (external module `patterns`). -/
abbrev Registry := String → Option TransformFn

/-- One transform step `[name, ...args]`. -/
abbrev TransformStep := String × List JSVal

/-- Modelled from the spec: `lookupBuiltinTransform` from the external
`patterns` module. An unknown transform name raises a permanent error
at evaluation time. -/
def lookupBuiltinTransform (reg : Registry) (name : String) :
    Except XErr TransformFn :=
  match reg name with
  | some t => .ok t
  | none => .error { msg := "Unknown transform: " ++ name,
                     isPermanentError := true }

/-- The loop body of `runTransforms`: apply each step in turn. -/
def runTransformSteps (reg : Registry) (value : JSVal) :
    List TransformStep → Except XErr JSVal
  | [] => .ok value
  | (name, args) :: rest => do
    let t ← lookupBuiltinTransform reg name
    runTransformSteps reg (t value args) rest

/-- `runTransforms(value, transformSteps)` from the source: a `null` or
`undefined` input short-circuits to `null` before any step runs; the
final value is coerced `null`-for-`undefined` (`tmpValue ?? null`).
(The `Array.isArray` shape checks of the source are unrepresentable in
the typed step list.) -/
def runTransforms (reg : Registry) (value : JSVal)
    (transformSteps : List TransformStep) : Except XErr JSVal :=
  if value = .null ∨ value = .undefined then
    .ok .null
  else do
    let tmpValue ← runTransformSteps reg value transformSteps
    .ok (nullCoalesce tmpValue)

/-- One alternative inside a `firstMatch` list:
`{ select, attr, transform = [] }`. -/
structure FirstMatchRule : Type where
  select : Option String := none
  attr : String := ""
  transform : List TransformStep := []
deriving DecidableEq, Repr

/-- A selector definition: either carries a `firstMatch` list of
alternatives, or is a single rule `{ select?, attr }`; in both shapes a
top-level `transform` list may be attached (it is applied by the rule
evaluator, not by `findFirstMatch`). -/
structure SelectorDef : Type where
  firstMatch : Option (List FirstMatchRule) := none
  select : Option String := none
  attr : String := ""
  transform : List TransformStep := []
deriving DecidableEq, Repr

/-- The `firstMatch` loop of `findFirstMatch`: the first alternative
whose `runSelector` result (after `?? null`) is not `null` wins, and
its own `transform` chain is applied to the match. -/
def findFirstMatchGo (reg : Registry) (resolveURL : String → String → String)
    (rootItem : Elem) (baseURI : String) :
    List FirstMatchRule → Except XErr JSVal
  | [] => .ok .null
  | r :: rest =>
    let m := nullCoalesce (runSelector resolveURL rootItem r.select r.attr baseURI)
    if m ≠ .null then
      runTransforms reg m r.transform
    else
      findFirstMatchGo reg resolveURL rootItem baseURI rest

/-- `findFirstMatch(rootItem, selectorDef, baseURI)` from the source. -/
def findFirstMatch (reg : Registry) (resolveURL : String → String → String)
    (rootItem : Elem) (selectorDef : SelectorDef) (baseURI : String) :
    Except XErr JSVal :=
  match selectorDef.firstMatch with
  | some alts => findFirstMatchGo reg resolveURL rootItem baseURI alts
  | none =>
    .ok (nullCoalesce
      (runSelector resolveURL rootItem selectorDef.select selectorDef.attr baseURI))

/-- Association-list read, modelling JavaScript object property lookup
(`obj[key]`, `undefined` when absent). -/
def alGet? {α : Type} (l : List (String × α)) (k : String) : Option α :=
  (l.find? (fun p => p.1 = k)).map (fun p => p.2)

/-- Association-list write, modelling JavaScript object property
assignment (`obj[key] = v`): overwrite an existing binding in place, or
append a new binding at the end (insertion order is preserved). -/
def alSet {α : Type} (l : List (String × α)) (k : String) (v : α) :
    List (String × α) :=
  match l with
  | [] => [(k, v)]
  | (k', v') :: rest => if k' = k then (k, v) :: rest else (k', v') :: alSet rest k v

/-- An input group: `{ first: <field-map> }` or `{ all: <field-map> }`;
any other shape triggers the `Bad selector` error of the rule
evaluator. -/
inductive InputGroup : Type where
  | first : List (String × SelectorDef) → InputGroup
  | all : List (String × SelectorDef) → InputGroup
  | invalid : InputGroup
deriving DecidableEq, Repr

/-- A value in the extraction map `found`: a single scalar (for a
`first` group) or a parallel array (for an `all` group). -/
inductive FoundVal : Type where
  | single : JSVal → FoundVal
  | many : List JSVal → FoundVal
deriving DecidableEq, Repr

/-- The extraction map `found`: `source → field → value-or-array`. -/
abbrev Found := List (String × List (String × FoundVal))

/-- The document operations the extractor calls, over an abstract DOM
state `D` (the document is an external collaborator; `remove` mutations
are modelled by state passing). `removeFirst` models
`doc.querySelector(sel)?.remove()` and `removeAll` models removing
every match of `sel`. -/
structure DocOps (D : Type) : Type where
  qs : D → String → Option Elem
  qsa : D → String → List Elem
  removeFirst : D → String → D
  removeAll : D → String → D

/-- A prune directive `{ first?, all? }` from `preprocess.prune`. -/
structure PruneRule : Type where
  first : Option String := none
  all : Option String := none
deriving DecidableEq, Repr

/-- The preprocessing loop of `extractMessages`: apply each prune
directive; a directive with neither a truthy `first` nor a truthy
`all` is a permanent `BadPatternError`. -/
def applyPrune {D : Type} (ops : DocOps D) (doc : D) :
    List PruneRule → Except XErr D
  | [] => .ok doc
  | rule :: rest =>
    if truthyStr rule.first then
      applyPrune ops (ops.removeFirst doc (rule.first.getD "")) rest
    else if truthyStr rule.all then
      applyPrune ops (ops.removeAll doc (rule.all.getD "")) rest
    else
      .error (BadPatternError "Bad prune rule (expected \"first\" or \"all\")")

/-- The evaluation of one selector definition inside the rule
evaluator: `findFirstMatch` followed by the definition's own top-level
transform chain (`runTransforms(value, def.transform)`). Both the
`first` and the `all` branches of the input walk use exactly this
composite. -/
def evalSelectorDef (reg : Registry) (resolveURL : String → String → String)
    (item : Elem) (d : SelectorDef) (baseURI : String) : Except XErr JSVal := do
  let value ← findFirstMatch reg resolveURL item d baseURI
  runTransforms reg value d.transform

/-- The field loop for a `first` input group:
`found[selector][key] = runTransforms(findFirstMatch(item, def), def.transform)`. -/
def evalFields (reg : Registry) (resolveURL : String → String → String)
    (item : Elem) (baseURI : String) (groupMap : List (String × FoundVal)) :
    List (String × SelectorDef) → Except XErr (List (String × FoundVal))
  | [] => .ok groupMap
  | (key, d) :: rest => do
    let v ← evalSelectorDef reg resolveURL item d baseURI
    evalFields reg resolveURL item baseURI (alSet groupMap key (.single v)) rest

/-- The inner loop for an `all` input group: one value per root match,
in document order. -/
def evalAllItems (reg : Registry) (resolveURL : String → String → String)
    (baseURI : String) (d : SelectorDef) :
    List Elem → Except XErr (List JSVal)
  | [] => .ok []
  | rootItem :: rest => do
    let v ← evalSelectorDef reg resolveURL rootItem d baseURI
    let vs ← evalAllItems reg resolveURL baseURI d rest
    .ok (v :: vs)

/-- The field loop for an `all` input group:
`found[selector][key]` becomes the array of per-root-match values. -/
def evalAllFields (reg : Registry) (resolveURL : String → String → String)
    (rootItems : List Elem) (baseURI : String)
    (groupMap : List (String × FoundVal)) :
    List (String × SelectorDef) → Except XErr (List (String × FoundVal))
  | [] => .ok groupMap
  | (key, d) :: rest => do
    let vs ← evalAllItems reg resolveURL baseURI d rootItems
    evalAllFields reg resolveURL rootItems baseURI
      (alSet groupMap key (.many vs)) rest

/-- The input walk of `extractMessages`: for each input group run
either the `first` logic (`doc.querySelector`, fields undefined when no
match) or the `all` logic (`doc.querySelectorAll`); any other group
shape is a permanent `BadPatternError`. -/
def evalInputs {D : Type} (reg : Registry)
    (resolveURL : String → String → String) (ops : DocOps D) (doc : D)
    (baseURI : String) (found : Found) :
    List (String × InputGroup) → Except XErr Found
  | [] => .ok found
  | (selector, g) :: rest =>
    let groupMap := (alGet? found selector).getD []
    match g with
    | .first fields =>
      match ops.qs doc selector with
      | some item => do
        let gm ← evalFields reg resolveURL item baseURI groupMap fields
        evalInputs reg resolveURL ops doc baseURI (alSet found selector gm) rest
      | none =>
        evalInputs reg resolveURL ops doc baseURI (alSet found selector groupMap) rest
    | .all fields => do
      let rootItems := ops.qsa doc selector
      let gm ← evalAllFields reg resolveURL rootItems baseURI groupMap fields
      evalInputs reg resolveURL ops doc baseURI (alSet found selector gm) rest
    | .invalid =>
      .error (BadPatternError "Bad selector (expected \"first\" or \"all\")")

/-- A merged array entry: a JavaScript object `innerKey → value`. -/
abbrev Entry := List (String × JSVal)

/-- A payload value: a scalar, or the positional object
`{ ...cleanedResults }` spread from the merged array (keys `"0"`,
`"1"`, ...). -/
inductive PayloadVal : Type where
  | scalar : JSVal → PayloadVal
  | posMap : List (String × Entry) → PayloadVal
deriving DecidableEq, Repr

/-- A message payload (a JavaScript object in insertion order). -/
abbrev Payload := List (String × PayloadVal)

/-- One entry of an output schema's `fields` list:
`{ key, source?, requiredKeys?, optional = false }`. -/
structure OutputField : Type where
  key : String
  source : Option String := none
  requiredKeys : Option (List String) := none
  optional : Bool := false
deriving DecidableEq, Repr

/-- An output schema: ordered `fields`, the redundancy triggers
`omitIfExistsAny` (default `[]`), and the opaque `deduplicateBy` tag. -/
structure OutputSchema : Type where
  fields : List OutputField := []
  omitIfExistsAny : List String := []
  deduplicateBy : Option String := none
deriving DecidableEq, Repr

/-- `found[source][key]` as read by the single-value case of the
assembler (`undefined` when the group has no entry for the key; a
`first` group never stores arrays, so the `many` shape is unreachable
there and is mapped to `undefined`). -/
def foundVal (found : Found) (source key : String) : JSVal :=
  match (alGet? found source).bind (fun gm => alGet? gm key) with
  | some (.single v) => v
  | some (.many _) => .undefined
  | none => .undefined

/-- `found[source][innerKey]` as read by the array-merge case of the
assembler (always an array after the rule evaluator has processed an
`all` group). -/
def foundArr (found : Found) (source innerKey : String) : List JSVal :=
  match (alGet? found source).bind (fun gm => alGet? gm innerKey) with
  | some (.many vs) => vs
  | _ => []

/-- Sparse JavaScript array assignment
`results[idx] = results[idx] || {}; results[idx][innerKey] = v`:
extend the array with holes up to `idx` if needed. -/
def setSparse (results : List (Option Entry)) (idx : Nat) (k : String)
    (v : JSVal) : List (Option Entry) :=
  match results, idx with
  | [], 0 => [some (alSet [] k v)]
  | [], n + 1 => none :: setSparse [] n k v
  | e :: rest, 0 => some (alSet (e.getD []) k v) :: rest
  | e :: rest, n + 1 => e :: setSparse rest n k v

/-- `found[source][innerKey].forEach((value, idx) =>
results[idx][innerKey] = value ?? null)`. -/
def mergeVals (innerKey : String) (idx : Nat)
    (results : List (Option Entry)) : List JSVal → List (Option Entry)
  | [] => results
  | v :: vs =>
    mergeVals innerKey (idx + 1) (setSparse results idx innerKey (nullCoalesce v)) vs

/-- The reconstruction loop of the array-merge case: fold the merge of
each inner key's array over an initially empty `results` array. -/
def zipAllResults (found : Found) (source : String)
    (innerKeys : List String) : List (Option Entry) :=
  innerKeys.foldl (fun results innerKey =>
    mergeVals innerKey 0 results (foundArr found source innerKey)) []

/-- `allFieldsPresent`: every required key of the entry is present
(`entry[x]` is `undefined` when the key is missing). -/
def allFieldsPresent (required : List String) (entry : Entry) : Bool :=
  required.all (fun x => isPresent ((alGet? entry x).getD .undefined))

/-- `results.filter(allFieldsPresent)`: JavaScript `filter` skips the
holes of a sparse array, then keeps the entries whose required keys are
all present. -/
def cleanedResultsOf (results : List (Option Entry))
    (required : List String) : List Entry :=
  (results.filterMap id).filter (allFieldsPresent required)

/-- `{ ...cleanedResults }`: spreading an array into an object yields
the positional mapping with index-as-string keys `"0"`, `"1"`, .... -/
def spreadPositional (entries : List Entry) : List (String × Entry) :=
  entries.enum.map (fun p => (toString p.1, p.2))

/-- The outcome of processing one output field. -/
inductive FieldStep : Type where
  | assign : String → PayloadVal → FieldStep
  | skipField : FieldStep
  | discardAction : FieldStep
deriving DecidableEq, Repr

/-- The body of the field loop of the message assembler: case 1 reads a
single extracted value (discarding the action when a non-optional value
is absent), case 2 merges the parallel arrays of an `all` group, case 3
reads the context (skipping the field when a non-optional value is
absent). -/
def processField (input : List (String × InputGroup)) (found : Found)
    (context : List (String × JSVal)) (action : String) (f : OutputField) :
    Except XErr FieldStep :=
  if truthyStr f.source then
    let source := f.source.getD ""
    match alGet? input source with
    | none =>
      .error (BadPatternError
        ("Output rule for action=" ++ action ++
         " references invalid input source=" ++ source))
    | some (.first _) =>
      let v := foundVal found source f.key
      if !f.optional && !isPresent v then
        .ok .discardAction
      else
        .ok (.assign f.key (.scalar (nullCoalesce v)))
    | some (.all fm) =>
      let innerKeys := fm.map (fun p => p.1)
      let results := zipAllResults found source innerKeys
      let required := f.requiredKeys.getD innerKeys
      let cleanedResults := cleanedResultsOf results required
      if cleanedResults.isEmpty && !f.optional then
        .ok .discardAction
      else
        .ok (.assign f.key (.posMap (spreadPositional cleanedResults)))
    | some .invalid =>
      .error (BadPatternError
        ("Output rule for action=" ++ action ++
         " does not match input key=" ++ f.key))
  else
    let v := (alGet? context f.key).getD .undefined
    if !f.optional && !isPresent v then
      .ok .skipField
    else
      .ok (.assign f.key (.scalar (nullCoalesce v)))

/-- The field loop of the assembler for one action: `skipField` moves
to the next field, `discardAction` aborts the whole action
(`continue nextaction`), yielding `none`. -/
def assembleFields (input : List (String × InputGroup)) (found : Found)
    (context : List (String × JSVal)) (action : String) (payload : Payload) :
    List OutputField → Except XErr (Option Payload)
  | [] => .ok (some payload)
  | f :: rest => do
    match ← processField input found context action f with
    | .discardAction => .ok none
    | .skipField => assembleFields input found context action payload rest
    | .assign k v =>
      assembleFields input found context action (alSet payload k v) rest

/-- A message body:
`{ action, payload, ver: 4, 'anti-duplicates': Math.floor(random() * 10000000) }`. -/
structure MessageBody : Type where
  action : String
  payload : Payload
  ver : Nat := 4
  antiDuplicates : Nat
deriving DecidableEq, Repr

/-- An assembled message `{ body, deduplicateBy }`. -/
structure Message : Type where
  body : MessageBody
  deduplicateBy : Option String := none
deriving DecidableEq, Repr

/-- The action loop of the assembler: one message per output entry
whose field loop succeeds. `antiDup` models the external random source:
`antiDup n` is the value `Math.floor(random() * 10000000)` of the n-th
draw of the extraction. -/
def assembleMessages (antiDup : Nat → Nat)
    (input : List (String × InputGroup)) (found : Found)
    (context : List (String × JSVal)) (msgs : List Message) :
    List (String × OutputSchema) → Except XErr (List Message)
  | [] => .ok msgs
  | (action, schema) :: rest => do
    match ← assembleFields input found context action [] schema.fields with
    | none => assembleMessages antiDup input found context msgs rest
    | some payload =>
      let body : MessageBody :=
        { action := action, payload := payload, ver := 4,
          antiDuplicates := antiDup msgs.length }
      assembleMessages antiDup input found context
        (msgs ++ [{ body := body, deduplicateBy := schema.deduplicateBy }]) rest

/-- The redundancy filter: drop every message at least one of whose
schema's `omitIfExistsAny` actions occurs among the actions of the
pre-filter message list (a single pass; the pre-filter list includes
the message itself). -/
def filterRedundant (output : List (String × OutputSchema))
    (messages : List Message) : List Message :=
  messages.filter (fun msg =>
    let omitIfExistsAny :=
      match alGet? output msg.body.action with
      | some schema => schema.omitIfExistsAny
      | none => []
    let isRedundant := omitIfExistsAny.any (fun action =>
      messages.any (fun x => x.body.action == action))
    !isRedundant)

/-- A category's rule: `preprocess.prune`, `input` and `output`
sections (each defaults to empty). -/
structure Rule : Type where
  prune : List PruneRule := []
  input : List (String × InputGroup) := []
  output : List (String × OutputSchema) := []
deriving DecidableEq, Repr

/-- The extraction environment: the external collaborators read by
`extractMessages`. `rules` is the snapshot returned by
`patterns.getRulesSnapshot()`, `ctry` the sanitizer's safe country
code, `resolveURL` the `URL` class, `registry` the builtin transforms
and `antiDup` the random source. -/
structure ExtractEnv : Type where
  rules : List (String × Rule)
  registry : Registry
  resolveURL : String → String → String
  ctry : String
  antiDup : Nat → Nat

/-- The per-job arguments of `extractMessages`. -/
structure ExtractArgs : Type where
  query : Option String
  category : String
  url : String

/-- The context of meta fields:
`{ q: query ?? null, qurl: doublefetchRequest.url, ctry: getSafeCountryCode() }`. -/
def contextOf (env : ExtractEnv) (args : ExtractArgs) : List (String × JSVal) :=
  [("q", nullCoalesce (match args.query with | some q => .str q | none => .undefined)),
   ("qurl", .str args.url),
   ("ctry", .str env.ctry)]

/-- `extractMessages({ doc, query, category, doublefetchRequest })` from
the source: unknown category yields no messages; otherwise prune the
document, evaluate the inputs, assemble one message per output action
and apply the redundancy filter. -/
def extractMessages {D : Type} (env : ExtractEnv) (ops : DocOps D) (doc : D)
    (args : ExtractArgs) : Except XErr (List Message) :=
  match alGet? env.rules args.category with
  | none => .ok []
  | some rule => do
    let baseURI := args.url
    let doc ← applyPrune ops doc rule.prune
    let found ← evalInputs env.registry env.resolveURL ops doc baseURI [] rule.input
    let context := contextOf env args
    let messages ← assembleMessages env.antiDup rule.input found context [] rule.output
    .ok (filterRedundant rule.output messages)

/-- `doublefetchQueryHash(query, category)`:
`fastHash('dfq:' + category + ':' + query.trim(), { truncate: true })`.
`fastHash` (external `utils` module, with `truncate: true` baked in) is
an explicit parameter. -/
def doublefetchQueryHash (fastHash : String → Nat) (query category : String) :
    Nat :=
  fastHash ("dfq:" ++ category ++ ":" ++ query.trim)

/-- The persisted-hash store state: the stored `(hash, expireAt)`
pairs, in insertion order. -/
abbrev HashStore := List (Nat × Nat)

/-- Whether the store holds a hash. -/
def storeContains (store : HashStore) (h : Nat) : Bool :=
  store.any (fun p => p.1 == h)

/-- Modelled from the spec: the `persistedHashes.add(hash, expireAt)`
collaborator contract — returns `true` iff the hash was newly
inserted. -/
def hashesAdd (store : HashStore) (h : Nat) (expireAt : Nat) :
    Bool × HashStore :=
  if storeContains store h then (false, store) else (true, store ++ [(h, expireAt)])

/-- Modelled from the spec: the `persistedHashes.delete(hash)`
collaborator contract. -/
def hashesDelete (store : HashStore) (h : Nat) : HashStore :=
  store.filter (fun p => !(p.1 == h))

/-- `sanitizer.checkSuspiciousQuery` result `{ accept, reason }`. -/
structure QueryCheck : Type where
  accept : Bool
  reason : String := ""

/-- The job environment: the collaborators wired into `runJob`, over an
abstract DOM state `D`. `fetchResult` is the outcome of
`anonymousHttpGet` for this job's request and `parseHtml` the external
HTML parser; `expireAt` is `timezoneAgnosticDailyExpireAt()`. -/
structure JobEnv (D : Type) : Type where
  extract : ExtractEnv
  ops : DocOps D
  checkSuspiciousQuery : String → QueryCheck
  fastHash : String → Nat
  expireAt : Nat
  fetchResult : Except XErr String
  parseHtml : String → Except XErr D

/-- The `runJob({ query, category, doublefetchRequest })` arguments
(`url` stands for the forwarded `doublefetchRequest.url`). -/
structure JobArgs : Type where
  query : String
  category : String
  url : String

/-- The result object of `runJob`: `discard(reason)` yields
`{ messages: [], reason }`; success yields `{ messages }`. -/
structure JobResult : Type where
  messages : List Message
  reason : Option String := none
deriving DecidableEq, Repr

/-- The collaborator calls a job run performs, in order (fetch covers
the fetch-and-parse try block). -/
inductive JobEvent : Type where
  | checkQuery : JobEvent
  | addHash : JobEvent
  | fetch : JobEvent
  | extract : JobEvent
  | deleteHash : JobEvent
deriving DecidableEq, Repr

/-- A job run's observable outcome: the returned (or thrown) result,
the final persisted-hash store, and the trace of collaborator calls. -/
structure JobOutcome : Type where
  result : Except XErr JobResult
  store : HashStore
  trace : List JobEvent
deriving Repr

/-- The local `discard(reason)` helper of `runJob`:
`{ messages: [], reason }`. -/
def discardResult (reason : String) : JobResult :=
  { messages := [], reason := some reason }

/-- The fetch-and-parse try block of `runJob`:
`anonymousHttpGet(...)` then `parseHtml(html)`. -/
def fetchAndParse {D : Type} (env : JobEnv D) : Except XErr D := do
  let html ← env.fetchResult
  env.parseHtml html

/-- `runJob` from the source: suspicious queries are discarded; the
cooldown fingerprint is added to the persisted-hash store (a hash that
was already present discards the job before any fetch); a fetch or
parse failure deletes the fingerprint and propagates the error; an
extraction failure is swallowed into an empty result without deleting
the fingerprint. -/
def runJob {D : Type} (env : JobEnv D) (store : HashStore) (args : JobArgs) :
    JobOutcome :=
  let queryCheck := env.checkSuspiciousQuery args.query
  if !queryCheck.accept then
    { result := .ok (discardResult
        ("Dropping suspicious query before double-fetch ("
          ++ queryCheck.reason ++ ")")),
      store := store, trace := [.checkQuery] }
  else
    let queryHash := doublefetchQueryHash env.fastHash args.query args.category
    let (wasAdded, store) := hashesAdd store queryHash env.expireAt
    if !wasAdded then
      { result := .ok (discardResult "Query has been recently seen."),
        store := store, trace := [.checkQuery, .addHash] }
    else
      match fetchAndParse env with
      | .error e =>
        { result := .error e, store := hashesDelete store queryHash,
          trace := [.checkQuery, .addHash, .fetch, .deleteHash] }
      | .ok doc =>
        match extractMessages env.extract env.ops doc
            { query := some args.query, category := args.category,
              url := args.url } with
        | .error e =>
          { result := .ok (discardResult ("Unsupported pattern: " ++ e.msg)),
            store := store, trace := [.checkQuery, .addHash, .fetch, .extract] }
        | .ok messages =>
          if messages.isEmpty then
            { result := .ok (discardResult "No content found."),
              store := store, trace := [.checkQuery, .addHash, .fetch, .extract] }
          else
            { result := .ok { messages := messages },
              store := store, trace := [.checkQuery, .addHash, .fetch, .extract] }

/-! ## Shared lemmas about the association-list model of JavaScript
objects -/

theorem alGet?_alSet_self {α : Type} (l : List (String × α)) (k : String)
    (v : α) : alGet? (alSet l k v) k = some v := by
  induction l with
  | nil => simp [alSet, alGet?]
  | cons p rest ih =>
    by_cases h : p.1 = k
    · simp [alSet, alGet?, h]
    · simpa [alSet, alGet?, h] using ih

theorem alGet?_alSet_ne {α : Type} (l : List (String × α)) (k k' : String)
    (v : α) (h : k' ≠ k) : alGet? (alSet l k v) k' = alGet? l k' := by
  induction l with
  | nil => simp [alSet, alGet?, Ne.symm h]
  | cons p rest ih =>
    by_cases hp : p.1 = k
    · simp [alSet, alGet?, hp, Ne.symm h]
    · by_cases hp' : p.1 = k'
      · simp [alSet, alGet?, hp, hp', h]
      · simpa [alSet, alGet?, hp, hp', h] using ih

theorem alSet_fresh {α : Type} (l : List (String × α)) (k : String) (v : α)
    (h : k ∉ l.map Prod.fst) : alSet l k v = l ++ [(k, v)] := by
  induction l with
  | nil => simp [alSet]
  | cons p rest ih =>
    simp only [List.map_cons, List.mem_cons] at h
    push_neg at h
    simp [alSet, Ne.symm h.1, ih h.2]

/-! ## C1: raw `href` extraction resolved against `baseURI` -/

/-- C1: for every element reached by the selection step that has a raw
`href` attribute, `runSelector` with `attr = "href"` returns the raw
attribute value URL-resolved against `baseURI` (via the `URL` class,
normalizing to a URL string); an absent or empty raw attribute yields
`null`; and the result depends only on the raw attribute — never on
the DOM parser's own resolved properties or base. -/
theorem runSelector_href_raw_resolved
    (resolveURL : String → String → String) (item : Elem)
    (sel : Option String) (base : String) (elem : Elem)
    (hsel : selectTarget item sel = some elem) :
    (∀ raw, elem.getAttribute "href" = some raw → raw ≠ "" →
      runSelector resolveURL item sel "href" base = .str (resolveURL raw base))
    ∧ (elem.getAttribute "href" = some "" →
      runSelector resolveURL item sel "href" base = .null)
    ∧ (elem.getAttribute "href" = none →
      runSelector resolveURL item sel "href" base = .null)
    ∧ (∀ (item' elem' : Elem) (sel' : Option String),
      selectTarget item' sel' = some elem' →
      elem'.getAttribute "href" = elem.getAttribute "href" →
      runSelector resolveURL item' sel' "href" base =
        runSelector resolveURL item sel "href" base) := by
  have core : ∀ (it : Elem) (s : Option String) (el : Elem),
      selectTarget it s = some el →
      runSelector resolveURL it s "href" base =
        (match el.getAttribute "href" with
         | some rawLink => if rawLink.isEmpty then JSVal.null
                           else JSVal.str (resolveURL rawLink base)
         | none => JSVal.null) := by
    intro it s el h
    unfold runSelector
    rw [h]
    have h1 : ¬ (("href" : String) = "textContent") := by decide
    simp [h1]
  refine ⟨?_, ?_, ?_, ?_⟩
  · intro raw hraw hne
    rw [core item sel elem hsel, hraw]
    simp [String.isEmpty_iff, hne]
  · intro hraw
    rw [core item sel elem hsel, hraw]
    simp [String.isEmpty_iff]
  · intro hraw
    rw [core item sel elem hsel, hraw]
  · intro item' elem' sel' hsel' heq
    rw [core item sel elem hsel, core item' sel' elem' hsel', heq]

/-- Witness for C1: a concrete element carrying the raw attribute
`href="/foo?bar=42"` and an (unused) parser-resolved property resolves
to `resolveURL "/foo?bar=42" base`. -/
theorem runSelector_href_raw_resolved_witness :
    runSelector (fun raw b => b ++ "|" ++ raw)
      (Elem.mk [("href", "/foo?bar=42")] "" [("href", "wrong-base/foo?bar=42")]
        (fun _ => none))
      none "href" "http://example.test" =
      .str "http://example.test|/foo?bar=42" :=
  (runSelector_href_raw_resolved (fun raw b => b ++ "|" ++ raw)
      (Elem.mk [("href", "/foo?bar=42")] "" [("href", "wrong-base/foo?bar=42")]
        (fun _ => none))
      none "http://example.test"
      (Elem.mk [("href", "/foo?bar=42")] "" [("href", "wrong-base/foo?bar=42")]
        (fun _ => none))
      rfl).1 "/foo?bar=42" rfl (by decide)

/-! ## C2: the redundancy filter and self-referencing `omitIfExistsAny` -/

/-- Document operations over a trivial DOM with no matches. -/
def unitOps : DocOps Unit :=
  { qs := fun _ _ => none, qsa := fun _ _ => [],
    removeFirst := fun d _ => d, removeAll := fun d _ => d }

/-- An output schema with no fields whose only redundancy trigger is
the action name `"A"` itself. -/
def selfOmitSchema : OutputSchema :=
  { fields := [], omitIfExistsAny := ["A"] }

/-- A pattern set with a single category `"cat"` whose single output
action `"A"` lists itself in `omitIfExistsAny`. -/
def selfOmitEnv : ExtractEnv :=
  { rules := [("cat", { output := [("A", selfOmitSchema)] })],
    registry := fun _ => none, resolveURL := fun raw base => base ++ raw,
    ctry := "de", antiDup := fun _ => 0 }

/-- The arguments of the `selfOmitEnv` extraction. -/
def selfOmitArgs : ExtractArgs :=
  { query := some "q", category := "cat", url := "http://example.test/" }

/-- The single message assembled for action `"A"` under
`selfOmitEnv`. -/
def selfOmitMessage : Message :=
  { body := { action := "A", payload := [], ver := 4, antiDuplicates := 0 },
    deduplicateBy := none }

/-- Counterexample to C2: action `"A"` lists only its own name in its
`omitIfExistsAny`, no other action exists, the assembler emits exactly
one message for `"A"` — and the redundancy filter drops it anyway
(the pre-filter set of emitted action names contains the message's own
action). The claim says such a message is never dropped unless some
other listed action was also emitted; the code drops it. -/
theorem filterRedundant_drops_self_listed :
    assembleMessages selfOmitEnv.antiDup [] [] (contextOf selfOmitEnv selfOmitArgs)
        [] [("A", selfOmitSchema)] = .ok [selfOmitMessage]
    ∧ filterRedundant [("A", selfOmitSchema)] [selfOmitMessage] = []
    ∧ extractMessages selfOmitEnv unitOps () selfOmitArgs = .ok [] :=
  ⟨rfl, rfl, rfl⟩

/-- C2 (amended): the redundancy filter is a single pass against the
pre-filter list of emitted messages: a message is kept iff none of the
actions in its schema's `omitIfExistsAny` occurs among the pre-filter
emitted action names — where that set includes the message's own
action, so a message whose own action is listed in its own
`omitIfExistsAny` is always dropped. -/
theorem filterRedundant_mem_iff (output : List (String × OutputSchema))
    (messages : List Message) (msg : Message) :
    msg ∈ filterRedundant output messages ↔
      msg ∈ messages ∧
        ∀ a ∈ (match alGet? output msg.body.action with
               | some schema => schema.omitIfExistsAny
               | none => []),
          ∀ m' ∈ messages, m'.body.action ≠ a := by
  unfold filterRedundant
  rw [List.mem_filter]
  simp only [Bool.not_eq_true', Bool.not_eq_true, List.any_eq_false, beq_iff_eq]

/-! ## C6 and C7: cooldown gate and error asymmetry of the job entry
point -/

theorem storeContains_hashesDelete (store : HashStore) (h : Nat) :
    storeContains (hashesDelete store h) h = false := by
  simp [storeContains, hashesDelete, List.any_eq_false, List.mem_filter]

theorem storeContains_append_self (store : HashStore) (h expireAt : Nat) :
    storeContains (store ++ [(h, expireAt)]) h = true := by
  simp [storeContains]

/-- C7: the cooldown fingerprint is the (truncated) fast hash of
`dfq:{category}:{trimmed query}`, and when `persistedHashes.add`
returns `false` (the fingerprint was already present) the job finishes
with an empty message list, an unchanged store, and neither a fetch nor
an extraction in its trace. -/
theorem runJob_cooldown_hit {D : Type} (env : JobEnv D) (store : HashStore)
    (args : JobArgs)
    (hq : (env.checkSuspiciousQuery args.query).accept = true)
    (hseen : storeContains store
      (doublefetchQueryHash env.fastHash args.query args.category) = true) :
    doublefetchQueryHash env.fastHash args.query args.category =
      env.fastHash ("dfq:" ++ args.category ++ ":" ++ args.query.trim)
    ∧ runJob env store args =
      { result := .ok (discardResult "Query has been recently seen."),
        store := store, trace := [.checkQuery, .addHash] }
    ∧ JobEvent.fetch ∉ (runJob env store args).trace
    ∧ JobEvent.extract ∉ (runJob env store args).trace := by
  have hrun : runJob env store args =
      { result := .ok (discardResult "Query has been recently seen."),
        store := store, trace := [.checkQuery, .addHash] } := by
    unfold runJob
    simp [hq, hashesAdd, hseen]
  refine ⟨rfl, hrun, ?_, ?_⟩
  · rw [hrun]
    simp
  · rw [hrun]
    simp

/-- Witness for C7: a concrete job whose fingerprint is already in the
store is discarded with `Query has been recently seen.`. -/
theorem runJob_cooldown_hit_witness :
    runJob
      { extract := selfOmitEnv, ops := unitOps,
        checkSuspiciousQuery := fun _ => { accept := true },
        fastHash := fun _ => 7, expireAt := 5,
        fetchResult := .ok "<html>", parseHtml := fun _ => .ok () }
      [(7, 5)]
      { query := " q ", category := "c", url := "http://example.test/" } =
      { result := .ok (discardResult "Query has been recently seen."),
        store := [(7, 5)],
        trace := [.checkQuery, .addHash] } :=
  (runJob_cooldown_hit
    { extract := selfOmitEnv, ops := unitOps,
      checkSuspiciousQuery := fun _ => { accept := true },
      fastHash := fun _ => 7, expireAt := 5,
      fetchResult := .ok "<html>", parseHtml := fun _ => .ok () }
    [(7, 5)]
    { query := " q ", category := "c", url := "http://example.test/" }
    rfl (by decide)).2.1

/-- C6: with the cooldown slot freshly acquired, a fetch or parse
failure deletes the cooldown fingerprint and propagates the error to
the caller, whereas a failure thrown by `extractMessages` is swallowed:
the job finishes with an empty message list and the fingerprint stays
in the store. -/
theorem runJob_error_asymmetry {D : Type} (env : JobEnv D)
    (store : HashStore) (args : JobArgs)
    (hq : (env.checkSuspiciousQuery args.query).accept = true)
    (hnew : storeContains store
      (doublefetchQueryHash env.fastHash args.query args.category) = false) :
    (∀ e, fetchAndParse env = .error e →
      (runJob env store args).result = .error e
      ∧ storeContains (runJob env store args).store
          (doublefetchQueryHash env.fastHash args.query args.category) = false
      ∧ (runJob env store args).trace = [.checkQuery, .addHash, .fetch, .deleteHash])
    ∧ (∀ (doc : D) e, fetchAndParse env = .ok doc →
      extractMessages env.extract env.ops doc
        { query := some args.query, category := args.category,
          url := args.url } = .error e →
      (runJob env store args).result =
        .ok (discardResult ("Unsupported pattern: " ++ e.msg))
      ∧ storeContains (runJob env store args).store
          (doublefetchQueryHash env.fastHash args.query args.category) = true
      ∧ (runJob env store args).trace = [.checkQuery, .addHash, .fetch, .extract]) := by
  constructor
  · intro e hfetch
    have hrun : runJob env store args =
        { result := .error e,
          store := hashesDelete
            (store ++ [(doublefetchQueryHash env.fastHash args.query args.category,
              env.expireAt)])
            (doublefetchQueryHash env.fastHash args.query args.category),
          trace := [.checkQuery, .addHash, .fetch, .deleteHash] } := by
      unfold runJob
      simp [hq, hashesAdd, hnew, hfetch]
    rw [hrun]
    exact ⟨rfl, storeContains_hashesDelete _ _, rfl⟩
  · intro doc e hfetch hextract
    have hrun : runJob env store args =
        { result := .ok (discardResult ("Unsupported pattern: " ++ e.msg)),
          store := store ++
            [(doublefetchQueryHash env.fastHash args.query args.category,
              env.expireAt)],
          trace := [.checkQuery, .addHash, .fetch, .extract] } := by
      unfold runJob
      simp [hq, hashesAdd, hnew, hfetch, hextract]
    rw [hrun]
    exact ⟨rfl, storeContains_append_self _ _ _, rfl⟩

/-- Witness for C6: a concrete job whose fetch fails propagates the
error and ends with the fingerprint out of the store. -/
theorem runJob_error_asymmetry_witness :
    (runJob
      { extract := selfOmitEnv, ops := unitOps,
        checkSuspiciousQuery := fun _ => { accept := true },
        fastHash := fun s => s.length, expireAt := 5,
        fetchResult := .error { msg := "network down", isPermanentError := false },
        parseHtml := fun _ => .ok () }
      [] { query := "q", category := "c", url := "http://example.test/" }).result =
      .error { msg := "network down", isPermanentError := false } :=
  ((runJob_error_asymmetry
    { extract := selfOmitEnv, ops := unitOps,
      checkSuspiciousQuery := fun _ => { accept := true },
      fastHash := fun s => s.length, expireAt := 5,
      fetchResult := .error { msg := "network down", isPermanentError := false },
      parseHtml := fun _ => .ok () }
    [] { query := "q", category := "c", url := "http://example.test/" }
    rfl rfl).1
    { msg := "network down", isPermanentError := false } rfl).1

/-! ## C9: optional vs non-optional context fields -/

/-- C9: for a context field (no truthy `source`), an optional field
whose context value is `null` or `undefined` is still inserted into the
payload with value `null`, while a non-optional field whose context
value is absent is skipped entirely; in both cases the field loop
completes (the action stays eligible for emission). -/
theorem contextField_optional_vs_skip
    (input : List (String × InputGroup)) (found : Found)
    (context : List (String × JSVal)) (action : String) (f : OutputField)
    (payload : Payload)
    (hsrc : truthyStr f.source = false) :
    (f.optional = true →
      ((alGet? context f.key).getD .undefined = .null ∨
       (alGet? context f.key).getD .undefined = .undefined) →
      processField input found context action f =
        .ok (.assign f.key (.scalar .null))
      ∧ assembleFields input found context action payload [f] =
        .ok (some (alSet payload f.key (.scalar .null))))
    ∧ (f.optional = false →
      isPresent ((alGet? context f.key).getD .undefined) = false →
      processField input found context action f = .ok .skipField
      ∧ assembleFields input found context action payload [f] =
        .ok (some payload)) := by
  constructor
  · intro hopt habs
    have hp : processField input found context action f =
        .ok (.assign f.key (.scalar .null)) := by
      unfold processField
      rcases habs with h | h <;> simp [hsrc, hopt, h, nullCoalesce]
    refine ⟨hp, ?_⟩
    unfold assembleFields
    rw [hp]
    rfl
  · intro hopt habs
    have hp : processField input found context action f = .ok .skipField := by
      unfold processField
      simp [hsrc, hopt, habs]
    refine ⟨hp, ?_⟩
    unfold assembleFields
    rw [hp]
    rfl

/-- Witness for C9: a concrete optional context field with a `null`
context value is inserted as `null`; a concrete non-optional one with
an absent value is skipped. -/
theorem contextField_optional_vs_skip_witness :
    (processField [] [] [("q", JSVal.null)] "act"
        { key := "q", optional := true } =
      .ok (.assign "q" (.scalar .null)))
    ∧ (processField [] [] [("q", JSVal.null)] "act"
        { key := "q", optional := false } = .ok .skipField) :=
  ⟨((contextField_optional_vs_skip [] [] [("q", JSVal.null)] "act"
      { key := "q", optional := true } [] rfl).1 rfl (Or.inl rfl)).1,
   ((contextField_optional_vs_skip [] [] [("q", JSVal.null)] "act"
      { key := "q", optional := false } [] rfl).2 rfl rfl).1⟩

/-! ## C10: `firstMatch` applies the winner's chain, then the top-level
chain -/

theorem findFirstMatchGo_skip (reg : Registry)
    (resolveURL : String → String → String) (rootItem : Elem)
    (baseURI : String) (pre rest : List FirstMatchRule)
    (hpre : ∀ r ∈ pre,
      nullCoalesce (runSelector resolveURL rootItem r.select r.attr baseURI) = .null) :
    findFirstMatchGo reg resolveURL rootItem baseURI (pre ++ rest) =
      findFirstMatchGo reg resolveURL rootItem baseURI rest := by
  induction pre with
  | nil => rfl
  | cons r pre ih =>
    have hr := hpre r (List.mem_cons_self r pre)
    simp only [List.cons_append, findFirstMatchGo, hr]
    simp only [ne_eq, not_true_eq_false, if_false, ite_false]
    exact ih (fun r' hr' => hpre r' (List.mem_cons_of_mem r hr'))

/-- C10: for a `firstMatch` selector definition that also carries a
top-level transform list, the winning alternative's own transform chain
is applied first and the definition's top-level chain is then applied
to that result (two chains in sequence); for a plain single-rule
definition the top-level chain is applied exactly once to the selector
result; and both the `first`-group and the `all`-group walks evaluate
each field through exactly this composite. -/
theorem firstMatch_two_transform_chains (reg : Registry)
    (resolveURL : String → String → String) (item : Elem)
    (d : SelectorDef) (baseURI : String) :
    (∀ pre alt post m,
      d.firstMatch = some (pre ++ alt :: post) →
      (∀ r ∈ pre,
        nullCoalesce (runSelector resolveURL item r.select r.attr baseURI) = .null) →
      nullCoalesce (runSelector resolveURL item alt.select alt.attr baseURI) = m →
      m ≠ .null →
      evalSelectorDef reg resolveURL item d baseURI =
        (runTransforms reg m alt.transform).bind
          (fun v => runTransforms reg v d.transform))
    ∧ (d.firstMatch = none →
      evalSelectorDef reg resolveURL item d baseURI =
        runTransforms reg
          (nullCoalesce (runSelector resolveURL item d.select d.attr baseURI))
          d.transform)
    ∧ (∀ key rest gm,
      evalFields reg resolveURL item baseURI gm ((key, d) :: rest) =
        (evalSelectorDef reg resolveURL item d baseURI).bind (fun v =>
          evalFields reg resolveURL item baseURI (alSet gm key (.single v)) rest))
    ∧ (∀ rest,
      evalAllItems reg resolveURL baseURI d (item :: rest) =
        (evalSelectorDef reg resolveURL item d baseURI).bind (fun v =>
          (evalAllItems reg resolveURL baseURI d rest).bind
            (fun vs => .ok (v :: vs)))) := by
  refine ⟨?_, ?_, ?_, ?_⟩
  · intro pre alt post m hfm hpre hm hne
    have hwin : findFirstMatch reg resolveURL item d baseURI =
        runTransforms reg m alt.transform := by
      simp only [findFirstMatch, hfm]
      rw [findFirstMatchGo_skip reg resolveURL item baseURI pre _ hpre]
      simp only [findFirstMatchGo, hm]
      simp [hne]
    unfold evalSelectorDef
    rw [hwin]
    cases runTransforms reg m alt.transform <;> rfl
  · intro hfm
    unfold evalSelectorDef findFirstMatch
    rw [hfm]
    rfl
  · intro key rest gm
    simp only [evalFields]
    cases h : evalSelectorDef reg resolveURL item d baseURI
    all_goals rfl
  · intro rest
    simp only [evalAllItems]
    cases h : evalSelectorDef reg resolveURL item d baseURI
    all_goals rfl

/-- Witness for C10: a concrete `firstMatch` definition whose winning
alternative carries its own transform chain, combined with a top-level
chain, evaluates the two chains in sequence. -/
theorem firstMatch_two_transform_chains_witness :
    evalSelectorDef
      (fun n => if n = "constA" then some (fun _ _ => .str "A")
                else if n = "suffixB" then some
                  (fun v _ => match v with | .str s => .str (s ++ "B") | x => x)
                else none)
      (fun raw base => base ++ raw)
      (Elem.mk [("t", "x")] "" [] (fun _ => none))
      { firstMatch := some [{ select := none, attr := "t",
                              transform := [("constA", [])] }],
        transform := [("suffixB", [])] }
      "http://example.test/" = .ok (.str "AB") := by
  have h := (firstMatch_two_transform_chains
    (fun n => if n = "constA" then some (fun _ _ => .str "A")
              else if n = "suffixB" then some
                (fun v _ => match v with | .str s => .str (s ++ "B") | x => x)
              else none)
    (fun raw base => base ++ raw)
    (Elem.mk [("t", "x")] "" [] (fun _ => none))
    { firstMatch := some [{ select := none, attr := "t",
                            transform := [("constA", [])] }],
      transform := [("suffixB", [])] }
    "http://example.test/").1
    [] { select := none, attr := "t", transform := [("constA", [])] } []
    (.str "x") rfl (by simp) (by decide) (by decide)
  rw [h]
  rfl

/-! ## C8: unknown transforms and permanence of extraction errors -/

theorem bind_eq_error {α β : Type} (x : Except XErr α) (f : α → Except XErr β)
    (e : XErr) (h : (do let a ← x; f a) = .error e) :
    x = .error e ∨ ∃ a, x = .ok a ∧ f a = .error e := by
  cases x with
  | error e' =>
    left
    have h2 : (Except.error e' : Except XErr β) = Except.error e :=
      (show (do let a ← (Except.error e' : Except XErr α); f a) =
        (Except.error e' : Except XErr β) from rfl).symm.trans h
    injection h2 with h3
    rw [h3]
  | ok a =>
    right
    exact ⟨a, rfl, (show (do let a' ← (Except.ok a : Except XErr α); f a') =
      f a from rfl).symm.trans h⟩

theorem bind_eq_ok {α β : Type} (x : Except XErr α) (f : α → Except XErr β)
    (b : β) (h : (do let a ← x; f a) = .ok b) :
    ∃ a, x = .ok a ∧ f a = .ok b := by
  cases x with
  | error e' =>
    exact Except.noConfusion ((show (do let a ← (Except.error e' : Except XErr α); f a) =
      (Except.error e' : Except XErr β) from rfl).symm.trans h)
  | ok a =>
    exact ⟨a, rfl, (show (do let a' ← (Except.ok a : Except XErr α); f a') =
      f a from rfl).symm.trans h⟩

theorem lookupBuiltinTransform_error_permanent (reg : Registry) (name : String)
    (e : XErr) (h : lookupBuiltinTransform reg name = .error e) :
    e.isPermanentError = true := by
  unfold lookupBuiltinTransform at h
  cases hr : reg name with
  | some t => rw [hr] at h; exact Except.noConfusion h
  | none =>
    rw [hr] at h
    injection h with h'
    rw [← h']

theorem runTransformSteps_error_permanent (reg : Registry)
    (steps : List TransformStep) :
    ∀ (v : JSVal) (e : XErr), runTransformSteps reg v steps = .error e →
      e.isPermanentError = true := by
  induction steps with
  | nil => intro v e h; exact Except.noConfusion h
  | cons s rest ih =>
    intro v e h
    obtain ⟨name, args⟩ := s
    unfold runTransformSteps at h
    rcases bind_eq_error _ _ _ h with h' | ⟨t, _, h2⟩
    · exact lookupBuiltinTransform_error_permanent reg name e h'
    · exact ih (t v args) e h2

theorem runTransforms_error_permanent (reg : Registry) (v : JSVal)
    (steps : List TransformStep) (e : XErr)
    (h : runTransforms reg v steps = .error e) : e.isPermanentError = true := by
  unfold runTransforms at h
  by_cases hv : v = .null ∨ v = .undefined
  · rw [if_pos hv] at h
    exact Except.noConfusion h
  · rw [if_neg hv] at h
    rcases bind_eq_error _ _ _ h with h' | ⟨a, _, h2⟩
    · exact runTransformSteps_error_permanent reg steps v e h'
    · exact Except.noConfusion h2

theorem findFirstMatchGo_error_permanent (reg : Registry)
    (resolveURL : String → String → String) (rootItem : Elem)
    (baseURI : String) (alts : List FirstMatchRule) (e : XErr)
    (h : findFirstMatchGo reg resolveURL rootItem baseURI alts = .error e) :
    e.isPermanentError = true := by
  induction alts with
  | nil => exact Except.noConfusion h
  | cons r rest ih =>
    unfold findFirstMatchGo at h
    simp only [] at h
    split at h
    · exact runTransforms_error_permanent reg _ r.transform e h
    · exact ih h

theorem findFirstMatch_error_permanent (reg : Registry)
    (resolveURL : String → String → String) (rootItem : Elem)
    (d : SelectorDef) (baseURI : String) (e : XErr)
    (h : findFirstMatch reg resolveURL rootItem d baseURI = .error e) :
    e.isPermanentError = true := by
  unfold findFirstMatch at h
  cases hd : d.firstMatch with
  | some alts =>
    rw [hd] at h
    exact findFirstMatchGo_error_permanent reg resolveURL rootItem baseURI alts e h
  | none => rw [hd] at h; exact Except.noConfusion h

theorem evalSelectorDef_error_permanent (reg : Registry)
    (resolveURL : String → String → String) (item : Elem) (d : SelectorDef)
    (baseURI : String) (e : XErr)
    (h : evalSelectorDef reg resolveURL item d baseURI = .error e) :
    e.isPermanentError = true := by
  unfold evalSelectorDef at h
  rcases bind_eq_error _ _ _ h with h' | ⟨v, _, h2⟩
  · exact findFirstMatch_error_permanent reg resolveURL item d baseURI e h'
  · exact runTransforms_error_permanent reg v d.transform e h2

theorem evalFields_error_permanent (reg : Registry)
    (resolveURL : String → String → String) (item : Elem) (baseURI : String)
    (fields : List (String × SelectorDef)) :
    ∀ (gm : List (String × FoundVal)) (e : XErr),
      evalFields reg resolveURL item baseURI gm fields = .error e →
      e.isPermanentError = true := by
  induction fields with
  | nil => intro gm e h; exact Except.noConfusion h
  | cons p rest ih =>
    intro gm e h
    obtain ⟨key, d⟩ := p
    unfold evalFields at h
    rcases bind_eq_error _ _ _ h with h' | ⟨v, _, h2⟩
    · exact evalSelectorDef_error_permanent reg resolveURL item d baseURI e h'
    · exact ih _ e h2

theorem evalAllItems_error_permanent (reg : Registry)
    (resolveURL : String → String → String) (baseURI : String)
    (d : SelectorDef) (items : List Elem) (e : XErr)
    (h : evalAllItems reg resolveURL baseURI d items = .error e) :
    e.isPermanentError = true := by
  induction items with
  | nil => exact Except.noConfusion h
  | cons it rest ih =>
    unfold evalAllItems at h
    rcases bind_eq_error _ _ _ h with h' | ⟨v, _, h2⟩
    · exact evalSelectorDef_error_permanent reg resolveURL it d baseURI e h'
    · rcases bind_eq_error _ _ _ h2 with h3 | ⟨vs, _, h4⟩
      · exact ih h3
      · exact Except.noConfusion h4

theorem evalAllFields_error_permanent (reg : Registry)
    (resolveURL : String → String → String) (rootItems : List Elem)
    (baseURI : String) (fields : List (String × SelectorDef)) :
    ∀ (gm : List (String × FoundVal)) (e : XErr),
      evalAllFields reg resolveURL rootItems baseURI gm fields = .error e →
      e.isPermanentError = true := by
  induction fields with
  | nil => intro gm e h; exact Except.noConfusion h
  | cons p rest ih =>
    intro gm e h
    obtain ⟨key, d⟩ := p
    unfold evalAllFields at h
    rcases bind_eq_error _ _ _ h with h' | ⟨vs, _, h2⟩
    · exact evalAllItems_error_permanent reg resolveURL baseURI d rootItems e h'
    · exact ih _ e h2

theorem evalInputs_error_permanent {D : Type} (reg : Registry)
    (resolveURL : String → String → String) (ops : DocOps D) (doc : D)
    (baseURI : String) (input : List (String × InputGroup)) :
    ∀ (found : Found) (e : XErr),
      evalInputs reg resolveURL ops doc baseURI found input = .error e →
      e.isPermanentError = true := by
  induction input with
  | nil => intro found e h; exact Except.noConfusion h
  | cons p rest ih =>
    intro found e h
    obtain ⟨selector, g⟩ := p
    unfold evalInputs at h
    cases g with
    | first fields =>
      cases hq : ops.qs doc selector with
      | some item =>
        rw [hq] at h
        rcases bind_eq_error _ _ _ h with h' | ⟨gm, _, h2⟩
        · exact evalFields_error_permanent reg resolveURL item baseURI fields _ e h'
        · exact ih _ e h2
      | none => rw [hq] at h; exact ih _ e h
    | all fields =>
      rcases bind_eq_error _ _ _ h with h' | ⟨gm, _, h2⟩
      · exact evalAllFields_error_permanent reg resolveURL _ baseURI fields _ e h'
      · exact ih _ e h2
    | invalid =>
      injection h with h'
      rw [← h']
      rfl

theorem applyPrune_error_permanent {D : Type} (ops : DocOps D)
    (prune : List PruneRule) :
    ∀ (doc : D) (e : XErr), applyPrune ops doc prune = .error e →
      e.isPermanentError = true := by
  induction prune with
  | nil => intro doc e h; exact Except.noConfusion h
  | cons rule rest ih =>
    intro doc e h
    unfold applyPrune at h
    split at h
    · exact ih _ e h
    · split at h
      · exact ih _ e h
      · injection h with h'
        rw [← h']
        rfl

theorem processField_error_permanent (input : List (String × InputGroup))
    (found : Found) (context : List (String × JSVal)) (action : String)
    (f : OutputField) (e : XErr)
    (h : processField input found context action f = .error e) :
    e.isPermanentError = true := by
  unfold processField at h
  simp only [] at h
  split at h
  · split at h
    · injection h with h'
      rw [← h']
      rfl
    · split at h <;> exact Except.noConfusion h
    · split at h <;> exact Except.noConfusion h
    · injection h with h'
      rw [← h']
      rfl
  · split at h <;> exact Except.noConfusion h

theorem assembleFields_error_permanent (input : List (String × InputGroup))
    (found : Found) (context : List (String × JSVal)) (action : String)
    (fields : List OutputField) :
    ∀ (payload : Payload) (e : XErr),
      assembleFields input found context action payload fields = .error e →
      e.isPermanentError = true := by
  induction fields with
  | nil => intro payload e h; exact Except.noConfusion h
  | cons f rest ih =>
    intro payload e h
    unfold assembleFields at h
    rcases bind_eq_error _ _ _ h with h' | ⟨step, _, h2⟩
    · exact processField_error_permanent input found context action f e h'
    · cases step with
      | discardAction => exact Except.noConfusion h2
      | skipField => exact ih _ e h2
      | assign k v => exact ih _ e h2

theorem assembleMessages_error_permanent (antiDup : Nat → Nat)
    (input : List (String × InputGroup)) (found : Found)
    (context : List (String × JSVal)) (output : List (String × OutputSchema)) :
    ∀ (msgs : List Message) (e : XErr),
      assembleMessages antiDup input found context msgs output = .error e →
      e.isPermanentError = true := by
  induction output with
  | nil => intro msgs e h; exact Except.noConfusion h
  | cons p rest ih =>
    intro msgs e h
    obtain ⟨action, schema⟩ := p
    unfold assembleMessages at h
    rcases bind_eq_error _ _ _ h with h' | ⟨payload?, _, h2⟩
    · exact assembleFields_error_permanent input found context action
        schema.fields [] e h'
    · cases payload? with
      | none => exact ih _ e h2
      | some payload => exact ih _ e h2

theorem extractMessages_error_permanent {D : Type} (env : ExtractEnv)
    (ops : DocOps D) (doc : D) (args : ExtractArgs) (e : XErr)
    (h : extractMessages env ops doc args = .error e) :
    e.isPermanentError = true := by
  unfold extractMessages at h
  cases hr : alGet? env.rules args.category with
  | none => rw [hr] at h; exact Except.noConfusion h
  | some rule =>
    rw [hr] at h
    rcases bind_eq_error _ _ _ h with h1 | ⟨doc', _, h2⟩
    · exact applyPrune_error_permanent ops rule.prune doc e h1
    · rcases bind_eq_error _ _ _ h2 with h3 | ⟨found, _, h4⟩
      · exact evalInputs_error_permanent env.registry env.resolveURL ops doc'
          args.url rule.input [] e h3
      · rcases bind_eq_error _ _ _ h4 with h5 | ⟨msgs, _, h6⟩
        · exact assembleMessages_error_permanent env.antiDup rule.input found
            (contextOf env args) rule.output [] e h5
        · exact Except.noConfusion h6

theorem runTransformSteps_unknown (reg : Registry)
    (steps : List TransformStep) (hun : ∃ s ∈ steps, reg s.1 = none) :
    ∀ (v : JSVal), ∃ e, runTransformSteps reg v steps = .error e ∧
      e.isPermanentError = true := by
  induction steps with
  | nil => exact absurd hun (by simp)
  | cons s rest ih =>
    intro v
    obtain ⟨name, args⟩ := s
    cases hr : reg name with
    | none =>
      refine ⟨{ msg := "Unknown transform: " ++ name, isPermanentError := true },
        ?_, rfl⟩
      unfold runTransformSteps lookupBuiltinTransform
      rw [hr]
      rfl
    | some t =>
      have hrest : ∃ s ∈ rest, reg s.1 = none := by
        rcases hun with ⟨s', hs', hnone⟩
        rcases List.mem_cons.mp hs' with heq | hmem
        · exfalso
          rw [heq] at hnone
          simp only at hnone
          rw [hnone] at hr
          exact Option.noConfusion hr
        · exact ⟨s', hmem, hnone⟩
      obtain ⟨e, he, hperm⟩ := ih hrest (t v args)
      refine ⟨e, ?_, hperm⟩
      unfold runTransformSteps lookupBuiltinTransform
      rw [hr]
      exact he

theorem evalFields_error_exists (reg : Registry)
    (resolveURL : String → String → String) (item : Elem) (baseURI : String)
    (fields : List (String × SelectorDef)) :
    ∀ (gm : List (String × FoundVal)),
      (∃ p ∈ fields, ∃ e0,
        evalSelectorDef reg resolveURL item p.2 baseURI = .error e0) →
      ∃ e, evalFields reg resolveURL item baseURI gm fields = .error e := by
  induction fields with
  | nil =>
    intro gm hex
    simp at hex
  | cons p0 rest ih =>
    intro gm hex
    obtain ⟨k1, d1⟩ := p0
    cases h1 : evalSelectorDef reg resolveURL item d1 baseURI with
    | error e1 =>
      refine ⟨e1, ?_⟩
      unfold evalFields
      rw [h1]
      rfl
    | ok v =>
      have hex' : ∃ p ∈ rest, ∃ e0,
          evalSelectorDef reg resolveURL item p.2 baseURI = .error e0 := by
        rcases hex with ⟨p, hp, e0, he0⟩
        rcases List.mem_cons.mp hp with heq | hmem
        · exfalso
          rw [heq] at he0
          simp only [] at he0
          rw [h1] at he0
          exact Except.noConfusion he0
        · exact ⟨p, hmem, e0, he0⟩
      obtain ⟨e, he⟩ := ih (alSet gm k1 (.single v)) hex'
      refine ⟨e, ?_⟩
      unfold evalFields
      rw [h1]
      exact he

theorem evalInputs_error_exists {D : Type} (reg : Registry)
    (resolveURL : String → String → String) (ops : DocOps D) (doc : D)
    (baseURI : String) (input : List (String × InputGroup)) :
    ∀ (found0 : Found) (sel : String) (fm : List (String × SelectorDef))
      (item : Elem),
      (sel, InputGroup.first fm) ∈ input →
      ops.qs doc sel = some item →
      (∃ p ∈ fm, ∃ e0,
        evalSelectorDef reg resolveURL item p.2 baseURI = .error e0) →
      ∃ e, evalInputs reg resolveURL ops doc baseURI found0 input = .error e := by
  induction input with
  | nil =>
    intro found0 sel fm item hmem _ _
    simp at hmem
  | cons p0 rest ih =>
    intro found0 sel fm item hmem hq hex
    obtain ⟨s1, g1⟩ := p0
    rcases List.mem_cons.mp hmem with heq | hmem'
    · injection heq with hs hg
      subst hs
      subst hg
      obtain ⟨e, he⟩ := evalFields_error_exists reg resolveURL item baseURI fm
        ((alGet? found0 sel).getD []) hex
      refine ⟨e, ?_⟩
      unfold evalInputs
      simp only []
      rw [hq]
      simp only []
      rw [he]
      rfl
    · cases g1 with
      | first fields =>
        cases hq1 : ops.qs doc s1 with
        | some item1 =>
          cases hev : evalFields reg resolveURL item1 baseURI
              ((alGet? found0 s1).getD []) fields with
          | error e1 =>
            refine ⟨e1, ?_⟩
            unfold evalInputs
            simp only []
            rw [hq1]
            simp only []
            rw [hev]
            rfl
          | ok gm =>
            obtain ⟨e, he⟩ := ih (alSet found0 s1 gm) sel fm item hmem' hq hex
            refine ⟨e, ?_⟩
            unfold evalInputs
            simp only []
            rw [hq1]
            simp only []
            rw [hev]
            exact he
        | none =>
          obtain ⟨e, he⟩ := ih (alSet found0 s1 ((alGet? found0 s1).getD []))
            sel fm item hmem' hq hex
          refine ⟨e, ?_⟩
          unfold evalInputs
          simp only []
          rw [hq1]
          exact he
      | all fields =>
        cases hev : evalAllFields reg resolveURL (ops.qsa doc s1) baseURI
            ((alGet? found0 s1).getD []) fields with
        | error e1 =>
          refine ⟨e1, ?_⟩
          unfold evalInputs
          simp only []
          rw [hev]
          rfl
        | ok gm =>
          obtain ⟨e, he⟩ := ih (alSet found0 s1 gm) sel fm item hmem' hq hex
          refine ⟨e, ?_⟩
          unfold evalInputs
          simp only []
          rw [hev]
          exact he
      | invalid =>
        exact ⟨BadPatternError "Bad selector (expected \"first\" or \"all\")", rfl⟩

theorem extractMessages_eq_of_inputs_error {D : Type} (env : ExtractEnv)
    (ops : DocOps D) (doc : D) (args : ExtractArgs) (rule : Rule) (doc' : D)
    (e : XErr)
    (hrule : alGet? env.rules args.category = some rule)
    (hprune : applyPrune ops doc rule.prune = .ok doc')
    (hinputs : evalInputs env.registry env.resolveURL ops doc' args.url []
      rule.input = .error e) :
    extractMessages env ops doc args = .error e := by
  unfold extractMessages
  rw [hrule]
  show (do
    let d0 ← applyPrune ops doc rule.prune
    let found ← evalInputs env.registry env.resolveURL ops d0 args.url []
      rule.input
    let messages ← assembleMessages env.antiDup rule.input found
      (contextOf env args) [] rule.output
    Except.ok (filterRedundant rule.output messages)) = .error e
  rw [hprune]
  show (do
    let found ← evalInputs env.registry env.resolveURL ops doc' args.url []
      rule.input
    let messages ← assembleMessages env.antiDup rule.input found
      (contextOf env args) [] rule.output
    Except.ok (filterRedundant rule.output messages)) = .error e
  rw [hinputs]
  rfl

theorem nullCoalesce_ne_undefined (v : JSVal) :
    nullCoalesce v ≠ .undefined := by
  cases v <;> simp [nullCoalesce]

/-- C8: a transform chain that references a transform name missing from
the registry fails at evaluation time whenever its input value is
non-null: `runTransforms` returns an error tagged permanent; every
error `extractMessages` can raise is tagged permanent; and end to end,
an extraction whose pattern's evaluation reaches such a chain on a
non-null selected value raises an error tagged permanent (so no
messages are emitted). -/
theorem unknown_transform_permanent :
    (∀ (reg : Registry) (value : JSVal) (steps : List TransformStep),
      value ≠ .null → value ≠ .undefined →
      (∃ s ∈ steps, reg s.1 = none) →
      ∃ e, runTransforms reg value steps = .error e ∧ e.isPermanentError = true)
    ∧ (∀ (D : Type) (env : ExtractEnv) (ops : DocOps D) (doc : D)
        (args : ExtractArgs) (e : XErr),
      extractMessages env ops doc args = .error e → e.isPermanentError = true)
    ∧ (∀ (D : Type) (env : ExtractEnv) (ops : DocOps D) (doc : D)
        (args : ExtractArgs) (rule : Rule) (doc' : D) (sel : String)
        (fm : List (String × SelectorDef)) (item : Elem) (key : String)
        (d : SelectorDef),
      alGet? env.rules args.category = some rule →
      applyPrune ops doc rule.prune = .ok doc' →
      (sel, InputGroup.first fm) ∈ rule.input →
      ops.qs doc' sel = some item →
      (key, d) ∈ fm →
      d.firstMatch = none →
      nullCoalesce (runSelector env.resolveURL item d.select d.attr args.url) ≠
        .null →
      (∃ s ∈ d.transform, env.registry s.1 = none) →
      ∃ e, extractMessages env ops doc args = .error e ∧
        e.isPermanentError = true) := by
  refine ⟨?_, ?_, ?_⟩
  · intro reg value steps hnull hundef hun
    obtain ⟨e, he, hperm⟩ := runTransformSteps_unknown reg steps hun value
    refine ⟨e, ?_, hperm⟩
    unfold runTransforms
    rw [if_neg (by tauto)]
    rw [he]
    rfl
  · intro D env ops doc args e h
    exact extractMessages_error_permanent env ops doc args e h
  · intro D env ops doc args rule doc' sel fm item key d hrule hprune hmem hq
      hkd hfm hnn hun
    obtain ⟨e0, he0, _⟩ := runTransformSteps_unknown env.registry d.transform
      hun (nullCoalesce (runSelector env.resolveURL item d.select d.attr args.url))
    have hnu := nullCoalesce_ne_undefined
      (runSelector env.resolveURL item d.select d.attr args.url)
    have hrt : runTransforms env.registry
        (nullCoalesce (runSelector env.resolveURL item d.select d.attr args.url))
        d.transform = .error e0 := by
      unfold runTransforms
      rw [if_neg (by tauto)]
      rw [he0]
      rfl
    have hdef : evalSelectorDef env.registry env.resolveURL item d args.url =
        .error e0 := by
      unfold evalSelectorDef findFirstMatch
      rw [hfm]
      show runTransforms env.registry
        (nullCoalesce (runSelector env.resolveURL item d.select d.attr args.url))
        d.transform = .error e0
      exact hrt
    obtain ⟨e, he⟩ := evalInputs_error_exists env.registry env.resolveURL ops
      doc' args.url rule.input [] sel fm item hmem hq ⟨(key, d), hkd, e0, hdef⟩
    exact ⟨e,
      extractMessages_eq_of_inputs_error env ops doc args rule doc' e hrule
        hprune he,
      evalInputs_error_permanent env.registry env.resolveURL ops doc' args.url
        rule.input [] e he⟩

/-- The element for the C8 witness (text content `Some text`). -/
def c8elem : Elem := Elem.mk [] "Some text" [] (fun _ => none)

/-- Document operations for the C8 witness: `querySelector "div"` yields
the element. -/
def c8ops : DocOps Unit :=
  { qs := fun _ s => if s = "div" then some c8elem else none,
    qsa := fun _ _ => [], removeFirst := fun doc _ => doc,
    removeAll := fun doc _ => doc }

/-- The pattern set for the C8 witness: the `title` field applies the
unknown transform `thisBuiltinDoesNotExist` to the selected text. -/
def c8env : ExtractEnv :=
  { rules := [("cat",
      { input := [("div", InputGroup.first
          [("title", { attr := "textContent",
                       transform := [("thisBuiltinDoesNotExist", [])] })])],
        output := [("A", { fields := [{ key := "title", source := some "div" }] })] })],
    registry := fun _ => none, resolveURL := fun raw base => base ++ raw,
    ctry := "de", antiDup := fun _ => 0 }

/-- The arguments of the C8 witness extraction. -/
def c8args : ExtractArgs :=
  { query := some "q", category := "cat", url := "http://example.test/" }

/-- Witness for C8: the concrete extraction whose pattern references the
unknown transform `thisBuiltinDoesNotExist` on a non-null selected
value raises an error tagged permanent. -/
theorem unknown_transform_permanent_witness :
    ∃ e, extractMessages c8env c8ops () c8args = .error e
      ∧ e.isPermanentError = true :=
  unknown_transform_permanent.2.2 Unit c8env c8ops () c8args
    { input := [("div", InputGroup.first
        [("title", { attr := "textContent",
                     transform := [("thisBuiltinDoesNotExist", [])] })])],
      output := [("A", { fields := [{ key := "title", source := some "div" }] })] }
    () "div"
    [("title", { attr := "textContent",
                 transform := [("thisBuiltinDoesNotExist", [])] })]
    c8elem "title"
    { attr := "textContent", transform := [("thisBuiltinDoesNotExist", [])] }
    rfl rfl (by simp) rfl (by simp) rfl (by decide)
    ⟨("thisBuiltinDoesNotExist", []), by simp, rfl⟩

/-! ## C4: parallel arrays of an `all` group have the length of the
root-match list -/

theorem evalAllItems_length (reg : Registry)
    (resolveURL : String → String → String) (baseURI : String)
    (d : SelectorDef) :
    ∀ (items : List Elem) (vs : List JSVal),
      evalAllItems reg resolveURL baseURI d items = .ok vs →
      vs.length = items.length := by
  intro items
  induction items with
  | nil =>
    intro vs h
    injection h with h'
    rw [← h']
    rfl
  | cons it rest ih =>
    intro vs h
    unfold evalAllItems at h
    rcases bind_eq_ok _ _ _ h with ⟨v, _, h2⟩
    rcases bind_eq_ok _ _ _ h2 with ⟨vs', hrest, h3⟩
    injection h3 with h4
    rw [← h4]
    simp [ih vs' hrest]

theorem evalAllFields_preserve (reg : Registry)
    (resolveURL : String → String → String) (rootItems : List Elem)
    (baseURI : String) (fields : List (String × SelectorDef)) :
    ∀ (gm gm' : List (String × FoundVal)) (key : String),
      key ∉ fields.map Prod.fst →
      evalAllFields reg resolveURL rootItems baseURI gm fields = .ok gm' →
      alGet? gm' key = alGet? gm key := by
  induction fields with
  | nil =>
    intro gm gm' key hk h
    injection h with h'
    rw [← h']
  | cons p rest ih =>
    intro gm gm' key hk h
    obtain ⟨k1, d1⟩ := p
    unfold evalAllFields at h
    rcases bind_eq_ok _ _ _ h with ⟨vs, _, h2⟩
    simp only [List.map_cons, List.mem_cons] at hk
    push_neg at hk
    rw [ih _ _ key hk.2 h2, alGet?_alSet_ne _ _ _ _ hk.1]

theorem evalAllFields_mem (reg : Registry)
    (resolveURL : String → String → String) (rootItems : List Elem)
    (baseURI : String) (fields : List (String × SelectorDef)) :
    ∀ (gm gm' : List (String × FoundVal)) (key : String),
      key ∈ fields.map Prod.fst →
      evalAllFields reg resolveURL rootItems baseURI gm fields = .ok gm' →
      ∃ vs, alGet? gm' key = some (.many vs) ∧ vs.length = rootItems.length := by
  induction fields with
  | nil =>
    intro gm gm' key hk h
    simp at hk
  | cons p rest ih =>
    intro gm gm' key hk h
    obtain ⟨k1, d1⟩ := p
    unfold evalAllFields at h
    rcases bind_eq_ok _ _ _ h with ⟨vs, hvs, h2⟩
    by_cases hrest : key ∈ rest.map Prod.fst
    · exact ih _ _ key hrest h2
    · have hkey : key = k1 := by
        simp only [List.map_cons, List.mem_cons] at hk
        tauto
      subst hkey
      rw [evalAllFields_preserve reg resolveURL rootItems baseURI rest _ _ key
        hrest h2]
      rw [alGet?_alSet_self]
      exact ⟨vs, rfl,
        evalAllItems_length reg resolveURL baseURI d1 rootItems vs hvs⟩

theorem evalInputs_preserve {D : Type} (reg : Registry)
    (resolveURL : String → String → String) (ops : DocOps D) (doc : D)
    (baseURI : String) (input : List (String × InputGroup)) :
    ∀ (found found' : Found) (sel : String),
      sel ∉ input.map Prod.fst →
      evalInputs reg resolveURL ops doc baseURI found input = .ok found' →
      alGet? found' sel = alGet? found sel := by
  induction input with
  | nil =>
    intro found found' sel hk h
    injection h with h'
    rw [← h']
  | cons p rest ih =>
    intro found found' sel hk h
    obtain ⟨s1, g1⟩ := p
    simp only [List.map_cons, List.mem_cons] at hk
    push_neg at hk
    unfold evalInputs at h
    cases g1 with
    | first fields =>
      cases hq : ops.qs doc s1 with
      | some item =>
        rw [hq] at h
        rcases bind_eq_ok _ _ _ h with ⟨gm, _, h2⟩
        rw [ih _ _ sel hk.2 h2, alGet?_alSet_ne _ _ _ _ hk.1]
      | none =>
        rw [hq] at h
        rw [ih _ _ sel hk.2 h, alGet?_alSet_ne _ _ _ _ hk.1]
    | all fields =>
      rcases bind_eq_ok _ _ _ h with ⟨gm, _, h2⟩
      rw [ih _ _ sel hk.2 h2, alGet?_alSet_ne _ _ _ _ hk.1]
    | invalid => exact Except.noConfusion h

theorem evalInputs_allGroup {D : Type} (reg : Registry)
    (resolveURL : String → String → String) (ops : DocOps D) (doc : D)
    (baseURI : String) (input : List (String × InputGroup)) :
    ∀ (found0 found : Found) (sel : String)
      (fm : List (String × SelectorDef)),
      (input.map Prod.fst).Nodup →
      (sel, InputGroup.all fm) ∈ input →
      alGet? found0 sel = none →
      evalInputs reg resolveURL ops doc baseURI found0 input = .ok found →
      ∀ key ∈ fm.map Prod.fst,
        ∃ vs, (alGet? found sel).bind (fun gm => alGet? gm key) =
            some (.many vs)
          ∧ vs.length = (ops.qsa doc sel).length := by
  induction input with
  | nil =>
    intro found0 found sel fm _ hmem
    simp at hmem
  | cons p rest ih =>
    intro found0 found sel fm hnodup hmem h0 h key hkey
    obtain ⟨s1, g1⟩ := p
    simp only [List.map_cons, List.nodup_cons] at hnodup
    rcases List.mem_cons.mp hmem with heq | hmem'
    · injection heq with hs hg
      subst hs
      subst hg
      unfold evalInputs at h
      rcases bind_eq_ok _ _ _ h with ⟨gm, hgm, h2⟩
      rw [h0] at hgm
      have hpres := evalInputs_preserve reg resolveURL ops doc baseURI rest
        _ _ sel hnodup.1 h2
      rw [alGet?_alSet_self] at hpres
      obtain ⟨vs, hvs, hlen⟩ := evalAllFields_mem reg resolveURL
        (ops.qsa doc sel) baseURI fm _ _ key hkey hgm
      refine ⟨vs, ?_, hlen⟩
      rw [hpres]
      exact hvs
    · have hsel : sel ∈ rest.map Prod.fst :=
        List.mem_map_of_mem Prod.fst hmem'
      have hs1 : sel ≠ s1 := by
        intro hcontra
        rw [hcontra] at hsel
        exact hnodup.1 hsel
      unfold evalInputs at h
      cases g1 with
      | first fields =>
        cases hq : ops.qs doc s1 with
        | some item =>
          rw [hq] at h
          rcases bind_eq_ok _ _ _ h with ⟨gm, _, h2⟩
          exact ih _ _ sel fm hnodup.2 hmem'
            (by rw [alGet?_alSet_ne _ _ _ _ hs1]; exact h0) h2 key hkey
        | none =>
          rw [hq] at h
          exact ih _ _ sel fm hnodup.2 hmem'
            (by rw [alGet?_alSet_ne _ _ _ _ hs1]; exact h0) h key hkey
      | all fields =>
        rcases bind_eq_ok _ _ _ h with ⟨gm, _, h2⟩
        exact ih _ _ sel fm hnodup.2 hmem'
          (by rw [alGet?_alSet_ne _ _ _ _ hs1]; exact h0) h2 key hkey
      | invalid => exact Except.noConfusion h

/-- C4: when the rule evaluator succeeds on an input section with
distinct group keys, every field of an `all`-type input group is stored
in the extraction map as an array whose length equals the number of
root matches of the group's selector — so all per-field arrays of the
group have equal length. -/
theorem allGroup_parallel_array_lengths {D : Type} (reg : Registry)
    (resolveURL : String → String → String) (ops : DocOps D) (doc : D)
    (baseURI : String) (input : List (String × InputGroup)) (found : Found)
    (sel : String) (fm : List (String × SelectorDef))
    (hnodup : (input.map Prod.fst).Nodup)
    (hmem : (sel, InputGroup.all fm) ∈ input)
    (h : evalInputs reg resolveURL ops doc baseURI [] input = .ok found) :
    ∀ key ∈ fm.map Prod.fst,
      ∃ vs, (alGet? found sel).bind (fun gm => alGet? gm key) =
          some (.many vs)
        ∧ vs.length = (ops.qsa doc sel).length :=
  evalInputs_allGroup reg resolveURL ops doc baseURI input [] found sel fm
    hnodup hmem rfl h

/-- Document operations used by the C4 witness: `querySelectorAll "li"`
yields two elements. -/
def liOps : DocOps Unit :=
  { qs := fun _ _ => none,
    qsa := fun _ s =>
      if s = "li" then
        [Elem.mk [] "one" [] (fun _ => none), Elem.mk [] "two" [] (fun _ => none)]
      else [],
    removeFirst := fun d _ => d, removeAll := fun d _ => d }

/-- Witness for C4: a concrete `all` group over two root matches stores
a per-field array of length two. -/
theorem allGroup_parallel_array_lengths_witness :
    ∃ vs,
      (alGet? [("li", [("t", FoundVal.many [JSVal.str "one", JSVal.str "two"])])]
          "li").bind (fun gm => alGet? gm "t") = some (.many vs)
      ∧ vs.length = (liOps.qsa () "li").length :=
  allGroup_parallel_array_lengths (fun _ => none) (fun raw base => base ++ raw)
    liOps () "http://example.test/"
    [("li", InputGroup.all [("t", { attr := "textContent" })])]
    [("li", [("t", FoundVal.many [JSVal.str "one", JSVal.str "two"])])]
    "li" [("t", { attr := "textContent" })]
    (by simp) (by simp) rfl "t" (by simp)

/-! ## C3: a non-optional absent single-value field discards the
action -/

theorem assembleFields_discard (input : List (String × InputGroup))
    (found : Found) (context : List (String × JSVal)) (action : String)
    (fields : List OutputField) :
    ∀ (payload p : Payload),
      (∃ f ∈ fields,
        processField input found context action f = .ok .discardAction) →
      assembleFields input found context action payload fields ≠
        .ok (some p) := by
  induction fields with
  | nil =>
    intro payload p hex _
    simp at hex
  | cons f rest ih =>
    intro payload p hex h
    unfold assembleFields at h
    rcases bind_eq_ok _ _ _ h with ⟨step, hstep, h2⟩
    rcases hex with ⟨f', hf', hdisc⟩
    rcases List.mem_cons.mp hf' with heq | hmem
    · rw [heq] at hdisc
      rw [hdisc] at hstep
      injection hstep with h3
      rw [← h3] at h2
      have h4 : (Except.ok (none : Option Payload) : Except XErr (Option Payload)) =
          .ok (some p) := h2
      injection h4 with h5
      exact Option.noConfusion h5
    · cases step with
      | discardAction =>
        have h4 : (Except.ok (none : Option Payload) : Except XErr (Option Payload)) =
            .ok (some p) := h2
        injection h4 with h5
        exact Option.noConfusion h5
      | skipField => exact ih payload p ⟨f', hmem, hdisc⟩ h2
      | assign k v => exact ih _ p ⟨f', hmem, hdisc⟩ h2

theorem assembleMessages_mem (antiDup : Nat → Nat)
    (input : List (String × InputGroup)) (found : Found)
    (context : List (String × JSVal)) (output : List (String × OutputSchema)) :
    ∀ (acc msgs : List Message) (m : Message),
      assembleMessages antiDup input found context acc output = .ok msgs →
      m ∈ msgs →
      m ∈ acc ∨ ∃ schema, (m.body.action, schema) ∈ output ∧
        ∃ p, assembleFields input found context m.body.action [] schema.fields =
            .ok (some p) := by
  induction output with
  | nil =>
    intro acc msgs m h hm
    injection h with h'
    rw [← h'] at hm
    exact Or.inl hm
  | cons p0 rest ih =>
    intro acc msgs m h hm
    obtain ⟨action, schema⟩ := p0
    unfold assembleMessages at h
    rcases bind_eq_ok _ _ _ h with ⟨payload?, hpf, h2⟩
    cases payload? with
    | none =>
      rcases ih _ _ m h2 hm with hacc | ⟨schema', hmem, hp⟩
      · exact Or.inl hacc
      · exact Or.inr ⟨schema', List.mem_cons_of_mem _ hmem, hp⟩
    | some payload =>
      rcases ih _ _ m h2 hm with hacc | ⟨schema', hmem, hp⟩
      · rcases List.mem_append.mp hacc with hacc' | hself
        · exact Or.inl hacc'
        · have hm' := List.mem_singleton.mp hself
          subst hm'
          exact Or.inr ⟨schema, List.mem_cons_self _ _, payload, hpf⟩
      · exact Or.inr ⟨schema', List.mem_cons_of_mem _ hmem, hp⟩

theorem nodup_key_unique {α : Type} (l : List (String × α))
    (hnodup : (l.map Prod.fst).Nodup) (a : String) (s1 s2 : α)
    (h1 : (a, s1) ∈ l) (h2 : (a, s2) ∈ l) : s1 = s2 := by
  induction l with
  | nil => simp at h1
  | cons p rest ih =>
    simp only [List.map_cons, List.nodup_cons] at hnodup
    have key_of : ∀ (s : α), (a, s) ∈ rest → a ∈ rest.map Prod.fst := by
      intro s hs
      simpa using List.mem_map_of_mem Prod.fst hs
    rcases List.mem_cons.mp h1 with he1 | hm1 <;>
      rcases List.mem_cons.mp h2 with he2 | hm2
    · exact congrArg Prod.snd (he1.trans he2.symm)
    · exfalso
      apply hnodup.1
      rw [← he1]
      exact key_of s2 hm2
    · exfalso
      apply hnodup.1
      rw [← he2]
      exact key_of s1 hm1
    · exact ih hnodup.2 hm1 hm2

/-- C3: for an output field whose truthy `source` names a `first`-type
input group: if the field is not optional and the extracted value is
absent (`null`, `undefined` or the empty string), a successful
extraction emits no message for that action; otherwise (the field is
optional or its value is present) the field is assigned into the
payload with the value coerced `null`-for-absent (`value ?? null`). -/
theorem singleValue_field_discard_or_assign {D : Type}
    (env : ExtractEnv) (ops : DocOps D) (doc : D) (args : ExtractArgs)
    (rule : Rule) (action : String) (schema : OutputSchema) (f : OutputField)
    (doc' : D) (found : Found) (msgs : List Message)
    (hrule : alGet? env.rules args.category = some rule)
    (hnodup : (rule.output.map Prod.fst).Nodup)
    (hout : (action, schema) ∈ rule.output)
    (hf : f ∈ schema.fields)
    (hsrc : truthyStr f.source = true)
    (hfirst : ∃ fm, alGet? rule.input (f.source.getD "") =
      some (InputGroup.first fm))
    (hprune : applyPrune ops doc rule.prune = .ok doc')
    (hfound : evalInputs env.registry env.resolveURL ops doc' args.url []
      rule.input = .ok found)
    (hex : extractMessages env ops doc args = .ok msgs) :
    (f.optional = false →
      isPresent (foundVal found (f.source.getD "") f.key) = false →
      ∀ m ∈ msgs, m.body.action ≠ action)
    ∧ ((f.optional = true ∨
        isPresent (foundVal found (f.source.getD "") f.key) = true) →
      processField rule.input found (contextOf env args) action f =
        .ok (.assign f.key (.scalar
          (nullCoalesce (foundVal found (f.source.getD "") f.key))))
      ∧ ∀ (payload : Payload),
        assembleFields rule.input found (contextOf env args) action payload [f] =
          .ok (some (alSet payload f.key (.scalar
            (nullCoalesce (foundVal found (f.source.getD "") f.key)))))) := by
  obtain ⟨fm, hfm⟩ := hfirst
  constructor
  · intro hopt habsent
    have hdisc : processField rule.input found (contextOf env args) action f =
        .ok .discardAction := by
      unfold processField
      rw [if_pos hsrc]
      simp [hfm, hopt, habsent]
    unfold extractMessages at hex
    rw [hrule] at hex
    rcases bind_eq_ok _ _ _ hex with ⟨d2, hd2, hex2⟩
    have hd2' : doc' = d2 := Except.ok.inj (hprune.symm.trans hd2)
    subst hd2'
    rcases bind_eq_ok _ _ _ hex2 with ⟨found2, hf2, hex3⟩
    have hfound2 : found = found2 := Except.ok.inj (hfound.symm.trans hf2)
    subst hfound2
    rcases bind_eq_ok _ _ _ hex3 with ⟨msgs0, hasm, hex4⟩
    have hmsgs : msgs = filterRedundant rule.output msgs0 :=
      (Except.ok.inj hex4).symm
    intro m hm hact
    have hm0 : m ∈ msgs0 := by
      rw [hmsgs] at hm
      exact (List.mem_filter.mp hm).1
    rcases assembleMessages_mem env.antiDup rule.input found (contextOf env args)
        rule.output [] msgs0 m hasm hm0 with hacc | ⟨schema', hmem, p, hp⟩
    · simp at hacc
    · rw [hact] at hmem
      have hschema : schema' = schema :=
        nodup_key_unique rule.output hnodup action schema' schema hmem hout
      rw [hschema, hact] at hp
      exact assembleFields_discard rule.input found (contextOf env args) action
        schema.fields [] p ⟨f, hf, hdisc⟩ hp
  · intro hpresent
    have hp : processField rule.input found (contextOf env args) action f =
        .ok (.assign f.key (.scalar
          (nullCoalesce (foundVal found (f.source.getD "") f.key)))) := by
      unfold processField
      rw [if_pos hsrc]
      rcases hpresent with hopt | hpres
      · simp [hfm, hopt]
      · simp [hfm, hpres]
    refine ⟨hp, fun payload => ?_⟩
    unfold assembleFields
    rw [hp]
    rfl

/-- The pattern set for the C3 witness: both output actions draw the
field `k` from a `first` group whose selector matches nothing; action
`A`'s field is non-optional (so `A` is discarded), action `B`'s field
is optional (so `B` is emitted with the absent value coerced to
`null`). -/
def absentFieldEnv : ExtractEnv :=
  { rules := [("cat",
      { input := [("sel", InputGroup.first [("k", { attr := "textContent" })])],
        output := [("A", { fields := [{ key := "k", source := some "sel" }] }),
                   ("B", { fields := [{ key := "k", source := some "sel",
                                        optional := true }] })] })],
    registry := fun _ => none, resolveURL := fun raw base => base ++ raw,
    ctry := "de", antiDup := fun _ => 0 }

/-- The arguments of the C3 witness extraction. -/
def absentFieldArgs : ExtractArgs :=
  { query := some "q", category := "cat", url := "http://example.test/" }

/-- Witness for C3: in a concrete extraction, the only emitted message
(for action `B`, whose optional field was assigned `null`) is not for
action `A`, whose non-optional single-value field was absent; and the
optional field of `B` was assigned the coerced `null` value. -/
theorem singleValue_field_discard_or_assign_witness :
    ({ body := { action := "B",
                 payload := [("k", PayloadVal.scalar JSVal.null)], ver := 4,
                 antiDuplicates := 0 },
       deduplicateBy := none } : Message).body.action ≠ "A"
    ∧ processField
        [("sel", InputGroup.first [("k", { attr := "textContent" })])]
        [("sel", [])] (contextOf absentFieldEnv absentFieldArgs) "B"
        { key := "k", source := some "sel", optional := true } =
      .ok (.assign "k" (.scalar JSVal.null)) :=
  ⟨(singleValue_field_discard_or_assign absentFieldEnv unitOps ()
      absentFieldArgs
      { input := [("sel", InputGroup.first [("k", { attr := "textContent" })])],
        output := [("A", { fields := [{ key := "k", source := some "sel" }] }),
                   ("B", { fields := [{ key := "k", source := some "sel",
                                        optional := true }] })] }
      "A" { fields := [{ key := "k", source := some "sel" }] }
      { key := "k", source := some "sel" } () [("sel", [])]
      [{ body := { action := "B",
                   payload := [("k", PayloadVal.scalar JSVal.null)], ver := 4,
                   antiDuplicates := 0 },
         deduplicateBy := none }]
      rfl (by simp) (by simp) (by simp) rfl
      ⟨[("k", { attr := "textContent" })], rfl⟩ rfl rfl rfl).1 rfl rfl
      { body := { action := "B",
                  payload := [("k", PayloadVal.scalar JSVal.null)], ver := 4,
                  antiDuplicates := 0 },
        deduplicateBy := none } (by simp),
   ((singleValue_field_discard_or_assign absentFieldEnv unitOps ()
      absentFieldArgs
      { input := [("sel", InputGroup.first [("k", { attr := "textContent" })])],
        output := [("A", { fields := [{ key := "k", source := some "sel" }] }),
                   ("B", { fields := [{ key := "k", source := some "sel",
                                        optional := true }] })] }
      "B" { fields := [{ key := "k", source := some "sel", optional := true }] }
      { key := "k", source := some "sel", optional := true } () [("sel", [])]
      [{ body := { action := "B",
                   payload := [("k", PayloadVal.scalar JSVal.null)], ver := 4,
                   antiDuplicates := 0 },
         deduplicateBy := none }]
      rfl (by simp) (by simp) (by simp) rfl
      ⟨[("k", { attr := "textContent" })], rfl⟩ rfl rfl rfl).2
      (Or.inl rfl)).1⟩

/-! ## C5: array-merged output fields -/

/-- Written from the spec's words (array-merged field): reconstruct the
array of objects by zipping the per-field arrays of the `all` input
group — one entry per index below `n`, each carrying every inner key in
declaration order, with absent values coerced to `null`. This is the
spec-side definition that the code's sparse-array reconstruction is
compared against. -/
def specZipEntries (found : Found) (source : String)
    (innerKeys : List String) (n : Nat) : List Entry :=
  (List.range n).map (fun i =>
    innerKeys.map (fun k =>
      (k, nullCoalesce ((foundArr found source k).getD i JSVal.undefined))))

theorem mergeVals_cons_shift (k : String) :
    ∀ (vals : List JSVal) (idx : Nat) (x : Option Entry)
      (rest : List (Option Entry)),
      mergeVals k (idx + 1) (x :: rest) vals = x :: mergeVals k idx rest vals := by
  intro vals
  induction vals with
  | nil =>
    intro idx x rest
    rfl
  | cons v vs ih =>
    intro idx x rest
    show mergeVals k (idx + 1 + 1) (x :: setSparse rest idx k (nullCoalesce v)) vs =
      x :: mergeVals k (idx + 1) (setSparse rest idx k (nullCoalesce v)) vs
    exact ih (idx + 1) x (setSparse rest idx k (nullCoalesce v))

theorem mergeVals_nil_base (k : String) :
    ∀ (vals : List JSVal),
      mergeVals k 0 [] vals = vals.map (fun v => some [(k, nullCoalesce v)]) := by
  intro vals
  induction vals with
  | nil => rfl
  | cons v vs ih =>
    show mergeVals k (0 + 1) (some [(k, nullCoalesce v)] :: []) vs = _
    rw [mergeVals_cons_shift, ih]
    rfl

theorem mergeVals_dense (k : String) :
    ∀ (es : List Entry) (vals : List JSVal), es.length = vals.length →
      mergeVals k 0 (es.map some) vals =
        List.zipWith (fun e v => some (alSet e k (nullCoalesce v))) es vals := by
  intro es
  induction es with
  | nil =>
    intro vals hlen
    cases vals with
    | nil => rfl
    | cons v vs => simp at hlen
  | cons e es' ih =>
    intro vals hlen
    cases vals with
    | nil => simp at hlen
    | cons v vs =>
      show mergeVals k (0 + 1) (some (alSet e k (nullCoalesce v)) :: es'.map some) vs = _
      rw [mergeVals_cons_shift, ih vs (by simpa using hlen)]
      rfl

theorem map_eq_range_getD {α β : Type} (f : α → β) (d : α) (l : List α) :
    l.map f = (List.range l.length).map (fun i => f (l.getD i d)) := by
  refine List.ext_getElem (by simp) ?_
  intro i h1 h2
  have hi : i < l.length := by simpa using h1
  simp only [List.getElem_map, List.getElem_range]
  rw [List.getD_eq_getElem l d hi]

theorem specZipEntries_length (found : Found) (source : String)
    (innerKeys : List String) (n : Nat) :
    (specZipEntries found source innerKeys n).length = n := by
  simp [specZipEntries]

theorem map_fst_pairs (g : String → JSVal) (ks : List String) :
    (ks.map (fun k => (k, g k))).map Prod.fst = ks := by
  induction ks with
  | nil => rfl
  | cons a l ih => simp [ih]

theorem specZipEntries_map_fst (found : Found) (source : String)
    (innerKeys : List String) (n : Nat) :
    ∀ e ∈ specZipEntries found source innerKeys n,
      e.map Prod.fst = innerKeys := by
  intro e he
  simp only [specZipEntries, List.mem_map, List.mem_range] at he
  obtain ⟨i, _, rfl⟩ := he
  exact map_fst_pairs _ innerKeys

theorem foldl_mergeVals_spec (found : Found) (source : String) (n : Nat) :
    ∀ (ks ds : List String),
      (∀ k ∈ ks, (foundArr found source k).length = n) →
      (ds ++ ks).Nodup →
      ks.foldl (fun results innerKey =>
          mergeVals innerKey 0 results (foundArr found source innerKey))
        ((specZipEntries found source ds n).map some) =
      (specZipEntries found source (ds ++ ks) n).map some := by
  intro ks
  induction ks with
  | nil =>
    intro ds _ _
    simp
  | cons k ks' ih =>
    intro ds hlen hnodup
    have hk_notin_ds : k ∉ ds := by
      intro hin
      exact List.disjoint_of_nodup_append hnodup hin (List.mem_cons_self k ks')
    have hlen_k : (foundArr found source k).length = n :=
      hlen k (List.mem_cons_self k ks')
    have hstep : mergeVals k 0 ((specZipEntries found source ds n).map some)
        (foundArr found source k) =
        (specZipEntries found source (ds ++ [k]) n).map some := by
      rw [mergeVals_dense k (specZipEntries found source ds n)
        (foundArr found source k)
        (by rw [specZipEntries_length, hlen_k])]
      refine List.ext_getElem ?_ ?_
      · rw [List.length_zipWith, specZipEntries_length, hlen_k,
          List.length_map, specZipEntries_length]
        simp
      · intro i h1 h2
        have hi : i < n := by
          rw [List.length_zipWith, specZipEntries_length, hlen_k] at h1
          simpa using h1
        rw [List.getElem_zipWith, List.getElem_map]
        simp only [specZipEntries, List.getElem_map, List.getElem_range]
        have hfresh : k ∉ (ds.map (fun k' =>
            (k', nullCoalesce ((foundArr found source k').getD i
              JSVal.undefined)))).map Prod.fst := by
          rw [map_fst_pairs]
          exact hk_notin_ds
        rw [alSet_fresh _ _ _ hfresh]
        simp only [List.map_append, List.map_cons, List.map_nil]
        rw [List.getD_eq_getElem (foundArr found source k) JSVal.undefined
          (by rw [hlen_k]; exact hi)]
    show List.foldl _
      (mergeVals k 0 ((specZipEntries found source ds n).map some)
        (foundArr found source k)) ks' = _
    rw [hstep]
    have hrec := ih (ds ++ [k])
      (fun k' hk' => hlen k' (List.mem_cons_of_mem _ hk'))
      (by simpa [List.append_assoc] using hnodup)
    rw [hrec]
    simp [List.append_assoc]

theorem zipAllResults_spec (found : Found) (source : String)
    (innerKeys : List String) (n : Nat)
    (hne : innerKeys ≠ [])
    (hnodup : innerKeys.Nodup)
    (hlen : ∀ k ∈ innerKeys, (foundArr found source k).length = n) :
    zipAllResults found source innerKeys =
      (specZipEntries found source innerKeys n).map some := by
  cases innerKeys with
  | nil => exact absurd rfl hne
  | cons k0 ktail =>
    have hbase : mergeVals k0 0 [] (foundArr found source k0) =
        (specZipEntries found source [k0] n).map some := by
      rw [mergeVals_nil_base]
      rw [map_eq_range_getD (fun v => some [(k0, nullCoalesce v)]) JSVal.undefined
        (foundArr found source k0)]
      rw [hlen k0 (List.mem_cons_self k0 ktail)]
      simp [specZipEntries, List.map_map]
    show List.foldl _ (mergeVals k0 0 [] (foundArr found source k0)) ktail = _
    rw [hbase]
    have hrec := foldl_mergeVals_spec found source n ktail [k0]
      (fun k hk => hlen k (List.mem_cons_of_mem _ hk))
      (by simpa using hnodup)
    rw [hrec]
    rfl

/-- C5: for an output field drawing from an `all`-type input group, the
assembler zips the group's per-field arrays into entry objects, keeps
the entries in which every required key is present (the required keys
default to all fields declared under the input group and may be
overridden by `requiredKeys`), discards the whole action when the
filtered list is empty and the field is not optional, and otherwise
assigns the field a positional mapping whose keys are the decimal index
strings `"0"`, `"1"`, .... -/
theorem allSource_field_assembly (input : List (String × InputGroup))
    (found : Found) (context : List (String × JSVal)) (action : String)
    (f : OutputField) (source : String) (fm : List (String × SelectorDef))
    (n : Nat)
    (hsome : f.source = some source)
    (hne : source ≠ "")
    (hgrp : alGet? input source = some (InputGroup.all fm))
    (hfm_ne : fm.map Prod.fst ≠ [])
    (hnodup : (fm.map Prod.fst).Nodup)
    (hlen : ∀ k ∈ fm.map Prod.fst, (foundArr found source k).length = n) :
    processField input found context action f =
      (if ((specZipEntries found source (fm.map Prod.fst) n).filter
            (allFieldsPresent (f.requiredKeys.getD (fm.map Prod.fst)))).isEmpty
          && !f.optional
       then .ok .discardAction
       else .ok (.assign f.key (.posMap (spreadPositional
         ((specZipEntries found source (fm.map Prod.fst) n).filter
           (allFieldsPresent (f.requiredKeys.getD (fm.map Prod.fst))))))))
    ∧ ∀ (entries : List Entry),
      (spreadPositional entries).map Prod.fst =
        (List.range entries.length).map toString := by
  constructor
  · have hempty : source.isEmpty = false := by
      rw [Bool.eq_false_iff]
      intro hemp
      exact hne ((String.isEmpty_iff source).mp hemp)
    have hsrcT : truthyStr f.source = true := by
      rw [hsome]
      simp [truthyStr, hempty]
    have hgetD : f.source.getD "" = source := by rw [hsome]; rfl
    have hclean : cleanedResultsOf
        (zipAllResults found source (fm.map Prod.fst))
        (f.requiredKeys.getD (fm.map Prod.fst)) =
        (specZipEntries found source (fm.map Prod.fst) n).filter
          (allFieldsPresent (f.requiredKeys.getD (fm.map Prod.fst))) := by
      unfold cleanedResultsOf
      rw [zipAllResults_spec found source (fm.map Prod.fst) n hfm_ne hnodup hlen]
      rw [List.filterMap_map]
      simp [List.filterMap_some]
    unfold processField
    rw [if_pos hsrcT]
    simp only [hgetD, hgrp]
    have hmapfst : (fm.map (fun p => p.1)) = fm.map Prod.fst := rfl
    rw [hmapfst, hclean]
  · intro entries
    unfold spreadPositional
    rw [List.map_map]
    have hcomp : (Prod.fst ∘ fun p : Nat × Entry => (toString p.1, p.2)) =
        (toString ∘ Prod.fst) := rfl
    rw [hcomp, ← List.map_map, List.enum_map_fst]

/-- The extraction map for the C5 witness: an `all` group `sel` with
two parallel arrays, whose second entry has a `null` value for `u`. -/
def c5found : Found :=
  [("sel", [("t", FoundVal.many [JSVal.str "a", JSVal.str "b"]),
            ("u", FoundVal.many [JSVal.str "c", JSVal.null])])]

/-- The input section for the C5 witness. -/
def c5input : List (String × InputGroup) :=
  [("sel", InputGroup.all [("t", { attr := "x" }), ("u", { attr := "y" })])]

/-- Witness for C5: the concrete merged field keeps only the complete
entry and assigns it under the positional key `"0"`. -/
theorem allSource_field_assembly_witness :
    processField c5input c5found [] "act"
        { key := "items", source := some "sel" } =
      .ok (.assign "items"
        (.posMap [("0", [("t", JSVal.str "a"), ("u", JSVal.str "c")])])) := by
  have h := (allSource_field_assembly c5input c5found [] "act"
    { key := "items", source := some "sel" } "sel"
    [("t", { attr := "x" }), ("u", { attr := "y" })] 2
    rfl (by decide) rfl (by decide) (by decide) (by decide)).1
  rw [h]
  rfl

end SearchExtractor
